import Mathlib

/-!
Verification development for the macro particle system
(`omnigibson/systems/macro_particle_system.py`): a shallow embedding of
`MacroParticleSystem` / `VisualParticleSystem` and proofs about its data
model, group lifecycle, and flat state-vector codec.

Python floats are modelled as `ℚ`; Python ints as `ℤ`/`ℕ`; Python strings
as `List Char`; `OrderedDict`s as insertion-ordered association lists;
raised exceptions (assertions, KeyError, ValueError) as `Except` errors.
-/

namespace MacroParticle

/-- (x, y, z) numeric triple, modelling a numpy 3-array of floats. -/
structure V3 where
  x : ℚ
  y : ℚ
  z : ℚ
deriving DecidableEq

/-- (x, y, z, w) numeric quadruple, modelling a quaternion numpy array. -/
structure V4 where
  x : ℚ
  y : ℚ
  z : ℚ
  w : ℚ
deriving DecidableEq

instance : Add V3 := ⟨fun a b => ⟨a.x + b.x, a.y + b.y, a.z + b.z⟩⟩
instance : Sub V3 := ⟨fun a b => ⟨a.x - b.x, a.y - b.y, a.z - b.z⟩⟩

/-- Componentwise product, modelling numpy elementwise `*`. -/
instance : Mul V3 := ⟨fun a b => ⟨a.x * b.x, a.y * b.y, a.z * b.z⟩⟩

/-- Scalar multiplication of a 3-array (numpy broadcast `*`). -/
def V3.smulQ (a : ℚ) (v : V3) : V3 := ⟨a * v.x, a * v.y, a * v.z⟩

/-- Division of a 3-array by a scalar (numpy broadcast `/`). -/
instance : HDiv V3 ℚ V3 := ⟨fun v a => ⟨v.x / a, v.y / a, v.z / a⟩⟩

/-- Componentwise `≤` on 3-arrays. -/
instance : LE V3 := ⟨fun a b => a.x ≤ b.x ∧ a.y ≤ b.y ∧ a.z ≤ b.z⟩

instance : DecidableRel (fun a b : V3 => a ≤ b) := fun a b =>
  inferInstanceAs (Decidable (a.x ≤ b.x ∧ a.y ≤ b.y ∧ a.z ≤ b.z))

def V3.ones : V3 := ⟨1, 1, 1⟩

def V3.toList (v : V3) : List ℚ := [v.x, v.y, v.z]

def V4.toList (v : V4) : List ℚ := [v.x, v.y, v.z, v.w]

/-- Rebuild a 3-array from the first three entries of a numeric list. -/
def v3OfList (l : List ℚ) : V3 := ⟨l.getD 0 0, l.getD 1 0, l.getD 2 0⟩

/-- Rebuild a quaternion from the first four entries of a numeric list. -/
def v4OfList (l : List ℚ) : V4 := ⟨l.getD 0 0, l.getD 1 0, l.getD 2 0, l.getD 3 0⟩

/-- Product of the three components (`np.product(obj.scale)`). -/
def V3.prod (v : V3) : ℚ := v.x * v.y * v.z

/-- Python `int(x)` on a float: truncation toward zero.  On a rational,
`num / den` with Lean's `Int` t-division truncates toward zero. -/
def ratToInt (q : ℚ) : ℤ := q.num / (q.den : ℤ)

/-! ### Insertion-ordered dictionaries as association lists

Python's `OrderedDict` (and 3.7+ `dict`) preserves insertion order; keyed
assignment of a fresh key appends, `pop` removes the entry keeping the
order of the rest. -/

variable {κ : Type} [DecidableEq κ] {α : Type}

/-- `d.keys()` of an ordered dict. -/
def dkeys (l : List (κ × α)) : List κ := l.map Prod.fst

/-- `d[k]` lookup (as an `Option`). -/
def dget : List (κ × α) → κ → Option α
  | [], _ => none
  | (k, v) :: t, k' => if k = k' then some v else dget t k'

/-- `d[k] = v`: update in place if the key exists, else append. -/
def dset : List (κ × α) → κ → α → List (κ × α)
  | [], k, v => [(k, v)]
  | (k, v) :: t, k', v' => if k = k' then (k, v') :: t else (k, v) :: dset t k' v'

/-- `d.pop(k)`: the dict with the entry for `k` removed. -/
def dpop : List (κ × α) → κ → List (κ × α)
  | [], _ => []
  | (k, v) :: t, k' => if k = k' then t else (k, v) :: dpop t k'

/-- Apply a function to the value stored at `k`, if present. -/
def dmodify : List (κ × α) → κ → (α → α) → List (κ × α)
  | [], _, _ => []
  | (k, v) :: t, k', f => if k = k' then (k, f v) :: t else (k, v) :: dmodify t k' f

/-! ### Particle name codec

A particle name is `f"{cls.particle_name_prefix}{idn}"` (Python string
formatting of an int), parsed back by `int(name.split(prefix)[-1])`.
Strings are modelled as `List Char`; decimal printing of the idn uses the
base-10 digit list, and parsing folds the digit characters back.  For the
canonical names the system builds, `split(prefix)[-1]` is exactly the part
of the name after the prefix, which is what `List.drop` yields. -/

/-- Decimal digit characters of a natural number, most significant first
(`str(n)` for a non-negative int). -/
def natToDigitChars (n : ℕ) : List Char :=
  if n = 0 then ['0']
  else ((Nat.digits 10 n).reverse).map (fun d => Char.ofNat (48 + d))

/-- `str(i)` for a Python int (possibly negative). -/
def intToChars (i : ℤ) : List Char :=
  if i < 0 then '-' :: natToDigitChars i.natAbs else natToDigitChars i.natAbs

/-- Fold decimal digit characters back into a natural number. -/
def digitCharsToNat (cs : List Char) : ℕ :=
  cs.foldl (fun a c => 10 * a + (c.toNat - 48)) 0

/-- `int(s)` on a decimal string with optional leading minus sign. -/
def charsToInt : List Char → ℤ
  | [] => 0
  | c :: rest =>
    if c = '-' then -(digitCharsToNat rest : ℤ) else (digitCharsToNat (c :: rest) : ℤ)

/-! ### Data model

`PName` models a Python string (particle / group / link names);
`PrimPath` models a USD prim path, kept as its list of `/`-separated
segments (`f"{a}/{b}"` is `a ++ [b]`, `path.split("/")[-2]` is the
second-to-last segment). -/

/-- A Python string (particle, group, or link name). -/
abbrev PName := List Char

/-- A USD prim path as its list of segments. -/
abbrev PrimPath := List PName

/-- The second-to-last entry of a list (`path.split("/")[-2]`). -/
def secondLast (l : List α) (d : α) : α := l.getD (l.length - 2) d

/-- A particle instance (`VisualGeomPrim` created by `_load_new_particle`).
Its local pose relative to its parent link and its world pose are related
by the external USD layer; in this embedding both accessors
(`get_local_pose`/`set_local_pose` and `set_position_orientation`) act on
the single stored pose. -/
structure Particle where
  name : PName
  primPath : PrimPath
  pos : V3
  ori : V4
  scale : V3
  visible : Bool
deriving DecidableEq

/-- The particle template (`cls.particle_object`, a `VisualGeomPrim`):
local pose, scale and bounding-box extent of the shared prototype. -/
structure TemplateObj where
  pos : V3
  ori : V4
  scale : V3
  aabbExtent : V3
deriving DecidableEq

/-- A host object (`BaseObject`) to which an attachment group belongs:
name, stable uuid, scale, bounding-box extent, ordered link-name list
(`obj.links.keys()`), root-link prim path, and own prim path. -/
structure HostObj where
  name : PName
  uuid : ℤ
  scale : V3
  aabbExtent : V3
  links : List PName
  rootLinkPath : PrimPath
  primPath : PrimPath
deriving DecidableEq

/-- The scene's object registry (`simulator.scene.object_registry`). -/
abbrev Scene := List HostObj

/-- `object_registry("name", nm)`. -/
def objectRegistryByName (scene : Scene) (nm : PName) : Option HostObj :=
  scene.find? (fun o => o.name = nm)

/-- `object_registry("uuid", u)` (and the 3-argument form defaulting to
`None`, both of which return the first object with that uuid, if any). -/
def objectRegistryByUuid (scene : Scene) (u : ℤ) : Option HostObj :=
  scene.find? (fun o => o.uuid = u)

/-- One result tuple of the external surface sampler
(`sample_cuboid_on_object_symmetric_bimodal_distribution`): a candidate
`(position, normal, quaternion, hit_link, reasons)`; the position is
absent for rejected candidates. -/
structure SampleResult where
  position : Option V3
  normal : V3
  quaternion : V4
  hitLink : PrimPath
  reasons : List PName
deriving DecidableEq

/-- Exceptions raised by the system (python asserts, `KeyError`s, the
`ValueError` of `_validate_group`, attribute access on `None`). -/
inductive SysErr where
  | duplicateParticle
  | unknownParticle
  | unknownGroup
  | duplicateGroup
  | stateMismatch
  | keyError
  | uninitialized
deriving DecidableEq

/-- Mutable class-level state of a `VisualParticleSystem` subclass:
the particle registry (`cls.particles`), scale-sampling bounds, the
high-water identifier, the installed template, and the two group
dictionaries of the group layer. -/
structure SysState where
  particles : List (PName × Particle)
  minScale : V3
  maxScale : V3
  maxParticleIdn : ℤ
  particleObject : Option TemplateObj
  groupParticles : List (PName × List (PName × Particle))
  groupObjects : List (PName × HostObj)
deriving DecidableEq

/-- `initialize(simulator)`: fresh collections, unit scale bounds,
allocator at -1, and the freshly created template installed
(`set_particle_template_object`); the template import and color
derivation happen in the external simulator/material layer. -/
def initSystem (tmpl : TemplateObj) : SysState :=
  ⟨[], V3.ones, V3.ones, -1, some tmpl, [], []⟩

/-- `cls.particle_name_prefix = f"{cls.name}Particle"`. -/
def particleNamePref (sysName : PName) : PName := sysName ++ ("Particle".data)

/-- `particle_idn2name`: `f"{cls.particle_name_prefix}{idn}"`. -/
def particle_idn2name (sysName : PName) (idn : ℤ) : PName :=
  particleNamePref sysName ++ intToChars idn

/-- `particle_name2idn`: `int(name.split(cls.particle_name_prefix)[-1])`.
For the canonical names the system builds (prefix followed by a decimal
number), the last piece of the split is the part after the prefix. -/
def particle_name2idn (sysName : PName) (name : PName) : ℤ :=
  charsToInt (name.drop (particleNamePref sysName).length)

/-- Rotated +Z axis of an (x, y, z, w) quaternion, `quat2mat(q) @ z_up`.
Modelled from the spec: `transform_utils.quat2mat` lives outside the
sources provided; this is the third column of the standard rotation
matrix of a unit quaternion, i.e. "the z unit vector rotated by its
orientation". -/
def quatRotZ (q : V4) : V3 :=
  ⟨2 * (q.x * q.z + q.w * q.y),
   2 * (q.y * q.z - q.w * q.x),
   1 - 2 * (q.x * q.x + q.y * q.y)⟩

section Ops

-- `sysName` is `cls.name` of the concrete system class; `draw` models a
-- single `np.random.uniform(low, high)` draw of shape (3,) (randomness
-- supplied as an oracle); `cbrtFn` models `np.cbrt`; `upd` is the
-- (possibly overridden) `update_particle_scaling` class method; and
-- `sampler` is the external surface sampler, given the host object, the
-- number of samples and the global cuboid extents (the distribution
-- parameters are class constants fixed externally).
variable (sysName : PName)
variable (draw : V3 → V3 → V3)
variable (cbrtFn : ℚ → ℚ)
variable (upd : SysState → PName → V3 × V3)
variable (sampler : HostObj → ℕ → List V3 → List SampleResult)

/-- `get_next_particle_unique_idn`: `cls.max_particle_idn + 1`. -/
def get_next_particle_unique_idn (s : SysState) : ℤ := s.maxParticleIdn + 1

/-- `set_scale_limits(minimum, maximum)`. -/
def set_scale_limits (s : SysState) (minimum maximum : Option V3) : SysState :=
  { s with minScale := minimum.getD s.minScale, maxScale := maximum.getD s.maxScale }

/-- `add_particle(prim_path, idn, scale, position, orientation)`:
allocate the name, check for collision, clone the template at
`f"{prim_path}/{name}"`, multiply its scale by the supplied or sampled
factor, make it visible, set the pose, register it, and advance the
high-water counter. -/
def add_particle (s : SysState) (primPath : PrimPath) (idn : Option ℤ)
    (scale : Option V3) (position : Option V3) (orientation : Option V4) :
    Except SysErr (Particle × SysState) :=
  let nm := particle_idn2name sysName (idn.getD (get_next_particle_unique_idn s))
  if nm ∈ dkeys s.particles then .error .duplicateParticle
  else
    match s.particleObject with
    | none => .error .uninitialized
    | some tmpl =>
      let p0 : Particle :=
        { name := nm
          primPath := primPath ++ [nm]
          pos := tmpl.pos
          ori := tmpl.ori
          scale := tmpl.scale * (scale.getD (draw s.minScale s.maxScale))
          visible := true }
      let p : Particle := { p0 with pos := position.getD p0.pos, ori := orientation.getD p0.ori }
      .ok (p, { s with particles := s.particles ++ [(nm, p)],
                       maxParticleIdn := s.maxParticleIdn + 1 })

/-- Pop a particle name from the first group dictionary containing it
(the search-and-`break` loop of `VisualParticleSystem.remove_particle`). -/
def popFromFirstGroup : List (PName × List (PName × Particle)) → PName →
    List (PName × List (PName × Particle))
  | [], _ => []
  | (g, gd) :: t, nm =>
    if nm ∈ dkeys gd then (g, dpop gd nm) :: t else (g, gd) :: popFromFirstGroup t nm

/-- `remove_particle(name)` (the group-layer override): drop the particle
from the registry and from whichever group holds it. -/
def remove_particle (s : SysState) (nm : PName) : Except SysErr SysState :=
  if nm ∈ dkeys s.particles then
    .ok { s with particles := dpop s.particles nm,
                 groupParticles := popFromFirstGroup s.groupParticles nm }
  else .error .unknownParticle

/-- `remove_all_particles()`: remove every particle, iterating over a
snapshot (`list(cls.particles.keys())`) of the key collection. -/
def remove_all_particles (s : SysState) : Except SysErr SysState :=
  (dkeys s.particles).foldlM (fun st nm => remove_particle st nm) s

/-- `reset()`: remove all particles and reset the identifier allocator. -/
def resetSystem (s : SysState) : Except SysErr SysState := do
  let s' ← remove_all_particles s
  return { s' with maxParticleIdn := -1 }

/-- Modelled from the spec: `BaseParticleSystem.clear` is not among the
sources provided (only the group-layer override is); per the spec,
tear-down "must fully empty the particle ... collections", so the base
`clear` removes every tracked particle. -/
def clear_base (s : SysState) : Except SysErr SysState :=
  remove_all_particles s

/-- `VisualParticleSystem.clear()`: run the base clear, then reset both
group dictionaries to fresh empty collections. -/
def clearSystem (s : SysState) : Except SysErr SysState := do
  let s' ← clear_base s
  return { s' with groupParticles := [], groupObjects := [] }

/-- `get_group_name(obj)`: the host object's own name. -/
def get_group_name (obj : HostObj) : PName := obj.name

/-- `create_attachment_group(obj)`. -/
def create_attachment_group (s : SysState) (obj : HostObj) :
    Except SysErr (PName × SysState) :=
  let g := get_group_name obj
  if g ∈ dkeys s.groupParticles then .error .duplicateGroup
  else .ok (g, { s with groupParticles := s.groupParticles ++ [(g, [])],
                        groupObjects := s.groupObjects ++ [(g, obj)] })

/-- `num_group_particles(group)`, validating the group first. -/
def num_group_particles (s : SysState) (g : PName) : Except SysErr ℕ :=
  if g ∈ dkeys s.groupParticles then .ok ((dget s.groupParticles g).getD []).length
  else .error .unknownGroup

/-- Internal: current particle count of a group (used by
`_sync_particle_groups` after validation has already happened). -/
def groupLen (s : SysState) (g : PName) : ℕ := ((dget s.groupParticles g).getD []).length

/-- `remove_all_group_particles(group)`: validate, then remove every
particle in the group, iterating over a snapshot of its keys. -/
def remove_all_group_particles (s : SysState) (g : PName) : Except SysErr SysState :=
  if g ∈ dkeys s.groupParticles then
    (dkeys ((dget s.groupParticles g).getD [])).foldlM (fun st nm => remove_particle st nm) s
  else .error .unknownGroup

/-- `remove_attachment_group(group)`: validate, remove the group's
particles, then pop the group from both dictionaries. -/
def remove_attachment_group (s : SysState) (g : PName) : Except SysErr SysState :=
  if g ∈ dkeys s.groupParticles then do
    let s' ← remove_all_group_particles s g
    return { s' with groupParticles := dpop s'.groupParticles g,
                     groupObjects := dpop s'.groupObjects g }
  else .error .unknownGroup

/-- The default `update_particle_scaling` hook: identity on the
class-wide bounds. -/
def update_particle_scaling_default (s : SysState) (_g : PName) : V3 × V3 :=
  (s.minScale, s.maxScale)

/-- `sample_scales(group, n)`: validate, apply the scaling hook through
`set_scale_limits`, and divide the `n` uniform draws (supplied here as
the oracle list `draws`, each drawn from the updated
`[min_scale, max_scale]`) by the host's average scale
`np.cbrt(np.product(obj.scale))`. -/
def sample_scales (s : SysState) (g : PName) (n : ℕ) (draws : List V3) :
    Except SysErr (List V3 × SysState) :=
  if g ∈ dkeys s.groupParticles then
    let pr := upd s g
    let s' := set_scale_limits s (some pr.1) (some pr.2)
    match dget s'.groupObjects g with
    | none => .error .keyError
    | some obj =>
      let avgScale := cbrtFn (V3.prod obj.scale)
      .ok ((draws.take n).map (fun d => d / avgScale), s')
  else .error .unknownGroup

/-- `generate_group_particles(group, positions, orientations, scales,
link_prim_paths)`: validate, apply the scaling hook, default the
orientations to (0,0,0,1), the links to the host's root link and the
scales to `sample_scales`, then create one particle per candidate; if
`cls._CLIP_INTO_OBJECTS` the position is first shifted by half the local
bbox height along the rotated -Z direction. -/
def generate_group_particles (clipIntoObjects : Bool) (s : SysState) (g : PName)
    (positions : List V3) (orientations : Option (List V4))
    (scalesOpt : Option (List V3)) (linkPrimPaths : Option (List PrimPath))
    (draws : List V3) : Except SysErr SysState :=
  if g ∈ dkeys s.groupParticles then
    let pr := upd s g
    let s := set_scale_limits s (some pr.1) (some pr.2)
    match dget s.groupObjects g with
    | none => .error .keyError
    | some obj => do
      let n := positions.length
      let oris := orientations.getD (List.replicate n (⟨0, 0, 0, 1⟩ : V4))
      let links := linkPrimPaths.getD (List.replicate n obj.rootLinkPath)
      let (scales, s) ←
        match scalesOpt with
        | some sc => pure (sc, s)
        | none => sample_scales cbrtFn upd s g n draws
      match s.particleObject with
      | none => .error .uninitialized
      | some tmpl =>
        let bbls := scales.map (fun sc => tmpl.aabbExtent * sc)
        (((positions.zip oris).zip (scales.zip bbls)).zip links).foldlM
          (fun st item =>
            let pos := item.1.1.1
            let ori := item.1.1.2
            let sc := item.1.2.1
            let bbl := item.1.2.2
            let link := item.2
            let pos' :=
              if clipIntoObjects then pos - V3.smulQ (bbl.z / 2) (quatRotZ ori) else pos
            do
              let (p, st') ←
                add_particle sysName draw st link none (some sc) (some pos') (some ori)
              return { st' with
                groupParticles := dmodify st'.groupParticles g (fun gd => dset gd p.name p) })
          s
  else .error .unknownGroup

/-- `generate_group_particles_on_object(group, n_particles,
min_particles_for_success)`: validate, clear stale group particles,
sample scales and global bbox extents, call the surface sampler, keep the
candidates whose position is present, and materialize them iff at least
`min_particles_for_success` survived; the boolean result reports that
threshold test. -/
def generate_group_particles_on_object (clipIntoObjects : Bool)
    (nPerGroup : ℕ) (s : SysState) (g : PName) (nOpt : Option ℕ)
    (minForSuccess : ℕ) (draws : List V3) : Except SysErr (Bool × SysState) :=
  if g ∈ dkeys s.groupParticles then do
    let s ← remove_all_group_particles s g
    match dget s.groupObjects g with
    | none => .error .keyError
    | some obj => do
      let n := nOpt.getD nPerGroup
      let (scales, s) ← sample_scales cbrtFn upd s g n draws
      match s.particleObject with
      | none => .error .uninitialized
      | some tmpl =>
        let avgScale := cbrtFn (V3.prod obj.scale)
        let bbgs := scales.map (fun sc => V3.smulQ avgScale (tmpl.aabbExtent * sc))
        let results := sampler obj n bbgs
        let valid := (results.zip scales).filterMap (fun pr =>
          pr.1.position.map (fun p => (p, pr.1.quaternion, pr.2, pr.1.hitLink)))
        if valid.length ≥ minForSuccess then do
          let s ← generate_group_particles sysName draw cbrtFn upd clipIntoObjects s g
            (valid.map (fun t => t.1)) (some (valid.map (fun t => t.2.1)))
            (some scales) (some (valid.map (fun t => t.2.2.2))) draws
          return (true, s)
        else return (false, s)
  else .error .unknownGroup

/-- One iteration of the particle-restoring loop inside
`_sync_particle_groups`' group-creation pass: create the particle with
its exact original identifier at the host's link and record it in the
group dictionary. -/
def syncAddParticle (obj : HostObj) (g : PName) (st2 : SysState)
    (pr : ℤ × PName) : Except SysErr SysState := do
  let (p, st3) ←
    add_particle sysName draw st2 (obj.primPath ++ [pr.2]) (some pr.1) none none none
  return { st3 with
    groupParticles := dmodify st3.groupParticles g (fun gd => dset gd p.name p) }

/-- One iteration of `_sync_particle_groups`' group-creation pass:
resolve the host by name, create the attachment group, and repopulate it
with the desired particles. -/
def syncCreateStep (scene : Scene)
    (mapping : List (PName × (List ℤ × List PName))) (st : SysState)
    (nm : PName) : Except SysErr SysState :=
  match objectRegistryByName scene nm, dget mapping nm with
  | some obj, some info => do
    let (g, st) ← create_attachment_group st obj
    (info.1.zip info.2).foldlM (syncAddParticle sysName draw obj g) st
  | _, _ => .error .keyError

/-- `_sync_particle_groups(group_objects, particle_idns,
particle_attached_link_names)`: reconciliation during state load.  Hosts
that did not resolve are skipped; stale groups are deleted, missing ones
created, and any common group whose particle count mismatches is deleted
and recreated; recreated groups are repopulated with the exact original
identifiers.  (Python iterates the `groups_to_delete`/`groups_to_create`
sets in unspecified order; here they are kept in deterministic order.) -/
def sync_particle_groups (scene : Scene) (s : SysState)
    (groupObjects : List (Option HostObj)) (particleIdns : List (List ℤ))
    (linkNames : List (List PName)) : Except SysErr SysState :=
  let mapping : List (PName × (List ℤ × List PName)) :=
    (groupObjects.zip (particleIdns.zip linkNames)).filterMap
      (fun pr => pr.1.map (fun obj => (obj.name, pr.2)))
  let current := dkeys s.groupParticles
  let desired := (groupObjects.filterMap id).map HostObj.name
  let toDelete := current.filter (fun nm => nm ∉ desired)
  let toCreate := desired.filter (fun nm => nm ∉ current)
  let common := current.filter (fun nm => nm ∈ desired)
  let mismatched := common.filter (fun nm =>
    groupLen s nm ≠ ((dget mapping nm).getD ([], [])).1.length)
  do
    let s ← (toDelete ++ mismatched).foldlM
      (fun st nm => remove_attachment_group st nm) s
    (toCreate ++ mismatched).foldlM (syncCreateStep sysName draw scene mapping) s

end Ops

/-! ### State codec

`_dump_state` produces a keyword dict; `_serialize` flattens it into a
single numeric vector (everything cast to float, modelled as `ℚ`);
`_deserialize` parses the vector back into a dict plus the number of
entries consumed; `_load_state` writes a dict back into the system. -/

/-- The dict produced by `MacroParticleSystem._dump_state` and consumed by
`_load_state` / `_serialize`.  `max_particle_idn` is kept numeric (`ℚ`):
`_deserialize` stores the raw float `state[0]` in this slot without an
`int(...)` conversion. -/
structure MPSState where
  max_particle_idn : ℚ
  n_particles : ℕ
  poses : List (V3 × V4)
  scales : List V3
  template_pose : Option (V3 × V4)
  template_scale : Option V3
deriving DecidableEq

/-- Per-group entry of the group-layer state dict. -/
structure GroupInfo where
  particle_attached_obj_uuid : ℤ
  n_particles : ℕ
  particle_idns : List ℤ
  particle_attached_link_names : List PName
deriving DecidableEq

/-- The dict produced by `VisualParticleSystem._dump_state`. -/
structure VPSState extends MPSState where
  n_groups : ℕ
  groups : List (PName × GroupInfo)
deriving DecidableEq

/-- `MacroParticleSystem.state_size`: `10 * n_particles + 2`, plus 10 for
the template block when a template object is installed. -/
def state_size_base (s : SysState) : ℕ :=
  10 * s.particles.length + 2 +
    (match s.particleObject with | none => 0 | some _ => 10)

/-- `VisualParticleSystem.state_size`: the base size plus `1 + 2 *
n_groups` plus `2 * num_group_particles(group)` summed over the groups. -/
def state_size_visual (s : SysState) : ℕ :=
  state_size_base s + 1 + 2 * s.groupParticles.length +
    (s.groupParticles.map (fun pr => 2 * pr.2.length)).sum

/-- `MacroParticleSystem._dump_state`. -/
def dump_base (s : SysState) : MPSState :=
  { max_particle_idn := (s.maxParticleIdn : ℚ)
    n_particles := s.particles.length
    poses := s.particles.map (fun pr => (pr.2.pos, pr.2.ori))
    scales := s.particles.map (fun pr => pr.2.scale)
    template_pose := s.particleObject.map (fun t => (t.pos, t.ori))
    template_scale := s.particleObject.map (fun t => t.scale) }

/-- `VisualParticleSystem._dump_state`: the base dict plus per-group
uuid, particle count, particle idns (parsed from the stored names) and
attached link names (second-to-last prim-path segment of each stored
particle).  The `getD 0` default stands for the `KeyError` a missing host
record would raise. -/
def dump_visual (sysName : PName) (s : SysState) : VPSState :=
  { toMPSState := dump_base s
    n_groups := s.groupParticles.length
    groups := s.groupParticles.map (fun pr =>
      (pr.1,
        { particle_attached_obj_uuid := ((dget s.groupObjects pr.1).map HostObj.uuid).getD 0
          n_particles := pr.2.length
          particle_idns := pr.2.map (fun q => particle_name2idn sysName q.1)
          particle_attached_link_names := pr.2.map (fun q => secondLast q.2.primPath []) })) }

/-- `MacroParticleSystem._load_state`: check the particle count, restore
the high-water identifier (the source assigns the numeric value as is;
the stored slot is an integer field here, so the numerically equal
integer is taken), restore each tracked particle's local pose and scale
positionally, and restore the template pose/scale if present. -/
def load_base (s : SysState) (st : MPSState) : Except SysErr SysState :=
  if s.particles.length ≠ st.n_particles then .error .stateMismatch
  else
    let s1 := { s with maxParticleIdn := ratToInt st.max_particle_idn }
    let newParticles := (s1.particles.zip (st.poses.zip st.scales)).map
        (fun pr => (pr.1.1, { pr.1.2 with pos := pr.2.1.1, ori := pr.2.1.2, scale := pr.2.2 }))
    let s2 := { s1 with particles := newParticles }
    match st.template_pose with
    | none => .ok s2
    | some tp =>
      match s2.particleObject with
      | none => .error .keyError
      | some tmpl =>
        .ok { s2 with particleObject := some { tmpl with
          pos := tp.1, ori := tp.2, scale := st.template_scale.getD tmpl.scale } }

/-- The flattened per-particle 7-number pose blocks
(`np.concatenate(pose) for pose in state["poses"]`). -/
def flatPoses : List (V3 × V4) → List ℚ
  | [] => []
  | pq :: t => pq.1.toList ++ pq.2.toList ++ flatPoses t

/-- The flattened per-particle 3-number scale blocks. -/
def flatScales : List V3 → List ℚ
  | [] => []
  | v :: t => v.toList ++ flatScales t

/-- `MacroParticleSystem._serialize`: `[max_particle_idn, n_particles,
poses..., scales...]` plus the optional 10-number template block, as one
flat float vector. -/
def serialize_base (st : MPSState) : List ℚ :=
  ([st.max_particle_idn, (st.n_particles : ℚ)] ++ flatPoses st.poses ++ flatScales st.scales) ++
  (match st.template_pose, st.template_scale with
   | some tp, some tsc => (tp.1.toList ++ tp.2.toList) ++ tsc.toList
   | _, _ => [])

/-- Python slice `v[a:b]`. -/
def slice (v : List ℚ) (a b : ℕ) : List ℚ := (v.drop a).take (b - a)

/-- `MacroParticleSystem._deserialize`: positional parse of the base
block.  `stateSize` is the value of `cls.state_size` at call time, which
decides whether a template block is expected.  Out-of-range scalar reads
default to 0, standing for the `IndexError` Python would raise on a
malformed vector. -/
def deserialize_base (stateSize : ℕ) (v : List ℚ) : MPSState × ℕ :=
  let maxIdn := v.getD 0 0
  let n := (ratToInt (v.getD 1 0)).toNat
  let poseOff := 2
  let scaleOff := n * 7 + poseOff
  let poses := (List.range n).map (fun i =>
    (v3OfList (slice v (7 * i + poseOff) (7 * i + poseOff + 3)),
     v4OfList (slice v (7 * i + poseOff + 3) (7 * (i + 1) + poseOff))))
  let scales := (List.range n).map (fun i =>
    v3OfList (slice v (3 * i + scaleOff) (3 * (i + 1) + scaleOff)))
  let idx := 2 + n * 10
  if stateSize > idx then
    ({ max_particle_idn := maxIdn, n_particles := n, poses := poses, scales := scales
       template_pose := some (v3OfList (slice v idx (idx + 3)),
                              v4OfList (slice v (idx + 3) (idx + 7)))
       template_scale := some (v3OfList (slice v (idx + 7) (idx + 10))) }, idx + 10)
  else
    ({ max_particle_idn := maxIdn, n_particles := n, poses := poses, scales := scales
       template_pose := none, template_scale := none }, idx)

/-- The `{link_name: i}` dict built by `VisualParticleSystem._serialize`
via enumeration: on duplicate link names the later (larger) index wins,
as in a Python dict comprehension. -/
def link2id (links : List PName) (ln : PName) : ℕ :=
  (links.length - 1) - links.reverse.findIdx (fun l => l = ln)

/-- The flattened per-group metadata blocks
(`[obj_uuid, n_particles, particle_idns..., link_ids...]`). -/
def flatGroups (s : SysState) : List (PName × GroupInfo) → List ℚ
  | [] => []
  | (g, gi) :: t =>
    let links := ((dget s.groupObjects g).map HostObj.links).getD []
    (([(gi.particle_attached_obj_uuid : ℚ), (gi.n_particles : ℚ)] ++
      gi.particle_idns.map (fun (i : ℤ) => (i : ℚ))) ++
      gi.particle_attached_link_names.map (fun ln => ((link2id links ln : ℕ) : ℚ))) ++
    flatGroups s t

/-- `VisualParticleSystem._serialize`: `n_groups` then the per-group
blocks, then the base block. -/
def serialize_visual (s : SysState) (st : VPSState) : List ℚ :=
  ((st.n_groups : ℚ) :: flatGroups s st.groups) ++ serialize_base st.toMPSState

/-- The per-group parsing loop of `VisualParticleSystem._deserialize`,
carrying the running index (`idx`), accumulated group dict and host list.
A uuid that does not resolve raises (`obj.links` on `None`). -/
def parseGroupsLoop (scene : Scene) (v : List ℚ) :
    ℕ → ℕ → List (PName × GroupInfo) → List HostObj →
    Except SysErr (List (PName × GroupInfo) × List HostObj × ℕ)
  | 0, idx, acc, objs => .ok (acc, objs, idx)
  | fuel + 1, idx, acc, objs =>
    let uuid := ratToInt (v.getD idx 0)
    let n := (ratToInt (v.getD (idx + 1) 0)).toNat
    match objectRegistryByUuid scene uuid with
    | none => .error .keyError
    | some obj =>
      let idns := (slice v (idx + 2) (idx + 2 + n)).map ratToInt
      let lnames := (slice v (idx + 2 + n) (idx + 2 + n * 2)).map
        (fun q => obj.links.getD (ratToInt q).toNat [])
      parseGroupsLoop scene v fuel (idx + 2 + n * 2)
        (acc ++ [(obj.name, ⟨uuid, n, idns, lnames⟩)]) (objs ++ [obj])

/-- `VisualParticleSystem._deserialize`: parse the group metadata,
synchronize the particle groups (this mutates the system state), then
parse the base block with `cls.state_size` computed on the synchronized
state.  Returns the parsed dict, the total number of entries consumed,
and the mutated state. -/
def deserialize_visual (sysName : PName) (draw : V3 → V3 → V3) (scene : Scene)
    (s : SysState) (v : List ℚ) : Except SysErr ((VPSState × ℕ) × SysState) := do
  let nGroups := (ratToInt (v.getD 0 0)).toNat
  let (groupsDict, groupObjs, idx) ← parseGroupsLoop scene v nGroups 1 [] []
  let s' ← sync_particle_groups sysName draw scene s (groupObjs.map some)
    (groupsDict.map (fun pr => pr.2.particle_idns))
    (groupsDict.map (fun pr => pr.2.particle_attached_link_names))
  let (st, idxSuper) := deserialize_base (state_size_visual s') (v.drop idx)
  return (({ toMPSState := st, n_groups := nGroups, groups := groupsDict }, idx + idxSuper), s')

/-- `VisualParticleSystem._load_state`: restore the high-water
identifier, synchronize the groups against the scene (hosts resolved by
uuid, unresolved ones passed as `None`), check the particle count, then
run the base load. -/
def load_visual (sysName : PName) (draw : V3 → V3 → V3) (scene : Scene)
    (s : SysState) (st : VPSState) : Except SysErr SysState := do
  let s0 := { s with maxParticleIdn := ratToInt st.max_particle_idn }
  let s1 ← sync_particle_groups sysName draw scene s0
    (st.groups.map (fun pr => objectRegistryByUuid scene pr.2.particle_attached_obj_uuid))
    (st.groups.map (fun pr => pr.2.particle_idns))
    (st.groups.map (fun pr => pr.2.particle_attached_link_names))
  if s1.particles.length ≠ st.n_particles then .error .stateMismatch
  else load_base s1 st.toMPSState


/-! ### Derived definitions used by the statements and proofs -/

deriving instance DecidableEq for Except

/-- Arguments of one `add_particle` call without an explicit `idn`:
prim path, optional scale, optional position, optional orientation. -/
def AddArgs : Type := PrimPath × Option V3 × Option V3 × Option V4

/-- A sequence of `add_particle` calls, none passing an explicit `idn`. -/
def addSeq (sysName : PName) (draw : V3 → V3 → V3) (s : SysState)
    (args : List AddArgs) : Except SysErr SysState :=
  args.foldlM (fun st a =>
    (add_particle sysName draw st a.1 none a.2.1 a.2.2.1 a.2.2.2).map Prod.snd) s

/-- The particle value a successful `add_particle` call constructs
(template clone, rescaled, made visible, posed). -/
def mkAddedParticle (sysName : PName) (draw : V3 → V3 → V3) (s : SysState)
    (idnv : ℤ) (pp : PrimPath) (sc : Option V3) (pos : Option V3)
    (ori : Option V4) (tmpl : TemplateObj) : Particle :=
  { name := particle_idn2name sysName idnv
    primPath := pp ++ [particle_idn2name sysName idnv]
    pos := pos.getD tmpl.pos
    ori := ori.getD tmpl.ori
    scale := tmpl.scale * (sc.getD (draw s.minScale s.maxScale))
    visible := true }

/-- The state a successful `add_particle` call leaves behind: the new
particle registered under its name, the high-water counter advanced. -/
def addedState (sysName : PName) (draw : V3 → V3 → V3) (s : SysState)
    (idnv : ℤ) (pp : PrimPath) (sc : Option V3) (pos : Option V3)
    (ori : Option V4) (tmpl : TemplateObj) : SysState :=
  let p := mkAddedParticle sysName draw s idnv pp sc pos ori tmpl
  { s with particles := s.particles ++ [(particle_idn2name sysName idnv, p)],
           maxParticleIdn := s.maxParticleIdn + 1 }

/-! ### Group-layer round trip: abstract grouped states

An abstract description of a grouped system pairs each host object with
its group's particle dictionary; the definitions below express the group
dictionaries, the dumped dict, the serialized group blocks, and the
particles `_sync_particle_groups` rebuilds, all as functions of that
description. -/

/-- Abstract grouped state: one entry per attachment group. -/
abbrev GroupData := List (HostObj × List (PName × Particle))

/-- The `_group_particles` dictionary of a system holding `gs`. -/
def gpOf (gs : GroupData) : List (PName × List (PName × Particle)) :=
  gs.map (fun pr => (pr.1.name, pr.2))

/-- The `_group_objects` dictionary of a system holding `gs`. -/
def goOf (gs : GroupData) : List (PName × HostObj) :=
  gs.map (fun pr => (pr.1.name, pr.1))

/-- All group-tracked particle names, in group order. -/
def allGroupNames (gs : GroupData) : List PName :=
  (gs.map (fun pr => dkeys pr.2)).join

/-- Total particle count across the groups. -/
def totalGroupParticles (gs : GroupData) : ℕ :=
  (gs.map (fun pr => pr.2.length)).sum

/-- The identifiers stored for one group (parsed back from the names). -/
def idnsOf (sysName : PName) (gd : List (PName × Particle)) : List ℤ :=
  gd.map (fun q => particle_name2idn sysName q.1)

/-- The attached-link names stored for one group. -/
def lnsOf (gd : List (PName × Particle)) : List PName :=
  gd.map (fun q => secondLast q.2.primPath [])

/-- The `GroupInfo` entry `_dump_state` produces for one group. -/
def giOf (sysName : PName) (pr : HostObj × List (PName × Particle)) : GroupInfo :=
  { particle_attached_obj_uuid := pr.1.uuid
    n_particles := pr.2.length
    particle_idns := idnsOf sysName pr.2
    particle_attached_link_names := lnsOf pr.2 }

/-- The dumped group dictionary of `gs`. -/
def dumpGroups (sysName : PName) (gs : GroupData) : List (PName × GroupInfo) :=
  gs.map (fun pr => (pr.1.name, giOf sysName pr))

/-- The flat block `_serialize` emits for one group:
`[uuid, n, idns..., link ids...]`. -/
def groupBlock (sysName : PName) (pr : HostObj × List (PName × Particle)) : List ℚ :=
  ([(pr.1.uuid : ℚ), (pr.2.length : ℚ)] ++
    (idnsOf sysName pr.2).map (fun (i : ℤ) => (i : ℚ))) ++
    (lnsOf pr.2).map (fun ln => ((link2id pr.1.links ln : ℕ) : ℚ))

/-- The concatenated flat group blocks of `gs`. -/
def flatGroupBlocks (sysName : PName) (gs : GroupData) : List ℚ :=
  (gs.map (groupBlock sysName)).join

/-- The particle `_sync_particle_groups` recreates for identifier `i` at
link `ln` of host `obj`: a template clone at the template pose, with a
fresh uniform scale draw from `[mn, mx]`. -/
def rebuiltParticle (sysName : PName) (draw : V3 → V3 → V3) (mn mx : V3)
    (tmpl : TemplateObj) (obj : HostObj) (i : ℤ) (ln : PName) : Particle :=
  { name := particle_idn2name sysName i
    primPath := (obj.primPath ++ [ln]) ++ [particle_idn2name sysName i]
    pos := tmpl.pos
    ori := tmpl.ori
    scale := tmpl.scale * draw mn mx
    visible := true }

/-- The rebuilt group dictionary for a list of (identifier, link) pairs. -/
def rebuiltGd (sysName : PName) (draw : V3 → V3 → V3) (mn mx : V3)
    (tmpl : TemplateObj) (obj : HostObj) (pairs : List (ℤ × PName)) :
    List (PName × Particle) :=
  pairs.map (fun ip =>
    (particle_idn2name sysName ip.1, rebuiltParticle sysName draw mn mx tmpl obj ip.1 ip.2))

/-- The rebuilt group dictionary for one abstract group entry. -/
def rebuiltGdOf (sysName : PName) (draw : V3 → V3 → V3) (mn mx : V3)
    (tmpl : TemplateObj) (pr : HostObj × List (PName × Particle)) :
    List (PName × Particle) :=
  rebuiltGd sysName draw mn mx tmpl pr.1 ((idnsOf sysName pr.2).zip (lnsOf pr.2))

/-- Invariants tying a live grouped system state to its abstract
description `gs` (all guaranteed by the Python runtime for states the
system itself builds): the group dictionaries are exactly those of `gs`,
the template is installed, the registry count matches the group total,
group and particle names are unique, particle names are canonical, every
stored attachment link belongs to its host, and the scene resolves every
host both by uuid and by name. -/
structure RTHyps (sysName : PName) (scene : Scene) (s : SysState)
    (gs : GroupData) (tmpl : TemplateObj) : Prop where
  hgp : s.groupParticles = gpOf gs
  hgo : s.groupObjects = goOf gs
  htmpl : s.particleObject = some tmpl
  hcount : s.particles.length = totalGroupParticles gs
  hnames : (allGroupNames gs).Nodup
  hgnames : (gs.map (fun pr => pr.1.name)).Nodup
  hcanon : ∀ pr ∈ gs, ∀ q ∈ pr.2, ∃ i : ℤ, q.1 = particle_idn2name sysName i
  hlinks : ∀ pr ∈ gs, ∀ q ∈ pr.2, secondLast q.2.primPath [] ∈ pr.1.links
  huuid : ∀ pr ∈ gs, objectRegistryByUuid scene pr.1.uuid = some pr.1
  hbyname : ∀ pr ∈ gs, objectRegistryByName scene pr.1.name = some pr.1

/-- The state one `syncAddParticle` step leaves behind: the rebuilt
particle registered, the counter advanced, and the group dictionary
extended with it. -/
def syncAddedState (sysName : PName) (draw : V3 → V3 → V3) (st : SysState)
    (obj : HostObj) (g : PName) (ip : ℤ × PName) (tmpl : TemplateObj) : SysState :=
  { addedState sysName draw st ip.1 (obj.primPath ++ [ip.2]) none none none tmpl with
    groupParticles := dmodify st.groupParticles g
      (fun gd => dset gd (particle_idn2name sysName ip.1)
        (mkAddedParticle sysName draw st ip.1 (obj.primPath ++ [ip.2]) none none none tmpl)) }

/-- The state `create_attachment_group` leaves behind for a fresh group. -/
def createdState (st : SysState) (obj : HostObj) : SysState :=
  { st with groupParticles := st.groupParticles ++ [(obj.name, [])],
            groupObjects := st.groupObjects ++ [(obj.name, obj)] }

/-! ### Concrete fixtures for closed evaluations -/

/-- A concrete system name (as for the Dust kind). -/
def exSysName : PName := "Dust".data

/-- A concrete template: origin pose, unit scale, bbox extent 2. -/
def exTemplate : TemplateObj := ⟨⟨0, 0, 0⟩, ⟨0, 0, 0, 1⟩, ⟨1, 1, 1⟩, ⟨2, 2, 2⟩⟩

/-- A deterministic stand-in for the uniform-draw oracle. -/
def exDraw : V3 → V3 → V3 := fun _ _ => ⟨1, 1, 1⟩

/-- A concrete host object with a single link. -/
def exHost : HostObj :=
  ⟨"chair".data, 11, ⟨1, 1, 1⟩, ⟨3, 3, 3⟩, ["base".data],
   ["W".data, "chair".data, "base".data], ["W".data, "chair".data]⟩

/-- An initialized system holding one (empty) attachment group for `exHost`. -/
def exStateG : SysState :=
  { initSystem exTemplate with
    groupParticles := [(exHost.name, [])]
    groupObjects := [(exHost.name, exHost)] }

/-- The canonical name of particle 0. -/
def exPName : PName := particle_idn2name exSysName 0

/-- A concrete tracked particle assigned to the `exHost` group. -/
def exParticle : Particle :=
  ⟨exPName, ["W".data, "chair".data, "base".data, exPName], ⟨1, 2, 3⟩, ⟨0, 0, 0, 1⟩,
   ⟨1, 1, 1⟩, true⟩

/-- A system holding one attachment group with one particle. -/
def exStateGP : SysState :=
  { particles := [(exPName, exParticle)]
    minScale := V3.ones
    maxScale := V3.ones
    maxParticleIdn := 0
    particleObject := some exTemplate
    groupParticles := [(exHost.name, [(exPName, exParticle)])]
    groupObjects := [(exHost.name, exHost)] }

/-- A sampler that rejects every candidate (returns one result per
requested sample, each with no position). -/
def exFailSampler : HostObj → ℕ → List V3 → List SampleResult :=
  fun _ k _ => List.replicate k ⟨none, ⟨0, 0, 0⟩, ⟨0, 0, 0, 1⟩, [], []⟩

/-- First host for the grouped round-trip evaluation (one link). -/
def rtHostA : HostObj :=
  ⟨"chairA".data, 11, ⟨1, 1, 1⟩, ⟨3, 3, 3⟩, ["baseA".data],
   ["W".data, "chairA".data, "baseA".data], ["W".data, "chairA".data]⟩

/-- Second host for the grouped round-trip evaluation (two links). -/
def rtHostB : HostObj :=
  ⟨"chairB".data, 22, ⟨1, 1, 1⟩, ⟨3, 3, 3⟩, ["baseB".data, "top".data],
   ["W".data, "chairB".data, "baseB".data], ["W".data, "chairB".data]⟩

/-- The two-host scene of the round-trip evaluation. -/
def rtScene : Scene := [rtHostA, rtHostB]

/-- A fixture particle with identifier `i`, parented at link `ln` of `host`. -/
def rtP (i : ℤ) (host : HostObj) (ln : PName) : PName × Particle :=
  (particle_idn2name exSysName i,
   ⟨particle_idn2name exSysName i,
    (host.primPath ++ [ln]) ++ [particle_idn2name exSysName i],
    ⟨0, 0, 0⟩, ⟨0, 0, 0, 1⟩, ⟨1, 1, 1⟩, true⟩)

/-- Group dictionary of the first fixture group (3 particles). -/
def rtGdA : List (PName × Particle) :=
  [rtP 0 rtHostA ("baseA".data), rtP 1 rtHostA ("baseA".data), rtP 2 rtHostA ("baseA".data)]

/-- Group dictionary of the second fixture group (5 particles). -/
def rtGdB : List (PName × Particle) :=
  [rtP 3 rtHostB ("baseB".data), rtP 4 rtHostB ("top".data), rtP 5 rtHostB ("baseB".data),
   rtP 6 rtHostB ("top".data), rtP 7 rtHostB ("baseB".data)]

/-- The abstract description of the fixture's two groups. -/
def rtGs : GroupData := [(rtHostA, rtGdA), (rtHostB, rtGdB)]

/-- A grouped system state holding two attachment groups with 3 and 5
particles. -/
def rtState : SysState :=
  { particles := rtGdA ++ rtGdB
    minScale := V3.ones
    maxScale := V3.ones
    maxParticleIdn := 7
    particleObject := some exTemplate
    groupParticles := gpOf rtGs
    groupObjects := goOf rtGs }

/-! ### Basic lemmas about the embedding's building blocks -/

theorem except_bind_ok {ε α β : Type} (a : α) (f : α → Except ε β) :
    (Except.ok a >>= f) = f a := rfl

theorem except_map_ok {ε α β : Type} (a : α) (f : α → β) :
    ((Except.ok a : Except ε α).map f) = Except.ok (f a) := rfl

theorem v3OfList_toList (v : V3) : v3OfList v.toList = v := rfl

theorem v4OfList_toList (v : V4) : v4OfList v.toList = v := rfl

theorem ratToInt_intCast (m : ℤ) : ratToInt (m : ℚ) = m := by
  simp [ratToInt]

theorem ratToInt_natCast (n : ℕ) : ratToInt (n : ℚ) = n := by
  simp [ratToInt]

theorem dget_append_right (l₁ l₂ : List (κ × α)) (k : κ) (h : k ∉ dkeys l₁) :
    dget (l₁ ++ l₂) k = dget l₂ k := by
  induction l₁ with
  | nil => rfl
  | cons hd t ih =>
    obtain ⟨k0, v0⟩ := hd
    simp only [dkeys, List.map_cons, List.mem_cons] at h
    push_neg at h
    have hne : ¬k0 = k := fun he => h.1 he.symm
    simp only [List.cons_append, dget, if_neg hne]
    exact ih (by simpa [dkeys] using h.2)

theorem dkeys_dset_mem (l : List (κ × α)) (k : κ) (v : α) (h : k ∈ dkeys l) :
    dkeys (dset l k v) = dkeys l := by
  induction l with
  | nil => simp [dkeys] at h
  | cons hd t ih =>
    obtain ⟨k0, v0⟩ := hd
    by_cases he : k0 = k
    · simp [dset, dkeys, he]
    · simp only [dkeys, List.map_cons, List.mem_cons] at h
      rcases h with h | h
      · exact absurd h.symm he
      · have := ih (by simpa [dkeys] using h)
        simp only [dset, if_neg he]
        simpa [dkeys] using this

theorem dkeys_dpop_not_mem (l : List (κ × α)) (k : κ) (h : k ∉ dkeys l) :
    dpop l k = l := by
  induction l with
  | nil => rfl
  | cons hd t ih =>
    obtain ⟨k0, v0⟩ := hd
    simp only [dkeys, List.map_cons, List.mem_cons] at h
    push_neg at h
    have hne : ¬k0 = k := fun he => h.1 he.symm
    simp [dpop, hne, ih (by simpa [dkeys] using h.2)]

theorem dget_of_mem_nodup {l : List (κ × α)} {k : κ} {v : α}
    (hnd : (dkeys l).Nodup) (hm : (k, v) ∈ l) : dget l k = some v := by
  induction l with
  | nil => simp at hm
  | cons hd t ih =>
    obtain ⟨k0, v0⟩ := hd
    simp only [dkeys, List.map_cons, List.nodup_cons] at hnd
    rcases List.mem_cons.mp hm with h | h
    · rw [Prod.mk.injEq] at h
      obtain ⟨hk, hv⟩ := h
      subst hk
      subst hv
      simp [dget]
    · have hk : k0 ≠ k := by
        intro he
        subst he
        exact hnd.1 (by simpa [dkeys] using List.mem_map_of_mem Prod.fst h)
      simp only [dget, if_neg hk]
      exact ih hnd.2 h

theorem dget_mem {l : List (κ × α)} {k : κ} {v : α} (h : dget l k = some v) :
    (k, v) ∈ l := by
  induction l with
  | nil => simp [dget] at h
  | cons hd t ih =>
    obtain ⟨k0, v0⟩ := hd
    by_cases he : k0 = k
    · subst he
      simp only [dget, if_true, reduceIte, Option.some.injEq] at h
      subst h
      exact List.mem_cons_self _ _
    · simp only [dget, if_neg he] at h
      exact List.mem_cons_of_mem _ (ih h)

theorem dkeys_append (l₁ l₂ : List (κ × α)) :
    dkeys (l₁ ++ l₂) = dkeys l₁ ++ dkeys l₂ := by
  simp [dkeys]

theorem dkeys_dmodify (l : List (κ × α)) (k : κ) (f : α → α) :
    dkeys (dmodify l k f) = dkeys l := by
  induction l with
  | nil => rfl
  | cons hd t ih =>
    obtain ⟨k0, v0⟩ := hd
    by_cases he : k0 = k
    · simp [dmodify, he, dkeys]
    · simp [dmodify, he, dkeys]
      simpa [dkeys] using ih

theorem dmodify_append_fresh (l : List (κ × α)) (k : κ) (x : α) (f : α → α)
    (h : k ∉ dkeys l) :
    dmodify (l ++ [(k, x)]) k f = l ++ [(k, f x)] := by
  induction l with
  | nil => simp [dmodify]
  | cons hd t ih =>
    obtain ⟨k0, v0⟩ := hd
    simp only [dkeys, List.map_cons, List.mem_cons] at h
    push_neg at h
    have hne : ¬k0 = k := fun he => h.1 he.symm
    simp only [List.cons_append, dmodify, if_neg hne]
    exact congrArg _ (ih (by simpa [dkeys] using h.2))

theorem dmodify_fresh (l : List (κ × α)) (k : κ) (f : α → α) (h : k ∉ dkeys l) :
    dmodify l k f = l := by
  induction l with
  | nil => rfl
  | cons hd t ih =>
    obtain ⟨k0, v0⟩ := hd
    simp only [dkeys, List.map_cons, List.mem_cons] at h
    push_neg at h
    have hne : ¬k0 = k := fun he => h.1 he.symm
    simp [dmodify, hne, ih (by simpa [dkeys] using h.2)]

theorem dmodify_append_left (l₁ l₂ : List (κ × α)) (k : κ) (f : α → α)
    (h : k ∉ dkeys l₁) :
    dmodify (l₁ ++ l₂) k f = l₁ ++ dmodify l₂ k f := by
  induction l₁ with
  | nil => rfl
  | cons hd t ih =>
    obtain ⟨k0, v0⟩ := hd
    simp only [dkeys, List.map_cons, List.mem_cons] at h
    push_neg at h
    have hne : ¬k0 = k := fun he => h.1 he.symm
    simp only [List.cons_append, dmodify, if_neg hne]
    exact congrArg _ (ih (by simpa [dkeys] using h.2))

theorem dset_fresh (l : List (κ × α)) (k : κ) (v : α) (h : k ∉ dkeys l) :
    dset l k v = l ++ [(k, v)] := by
  induction l with
  | nil => rfl
  | cons hd t ih =>
    obtain ⟨k0, v0⟩ := hd
    simp only [dkeys, List.map_cons, List.mem_cons] at h
    push_neg at h
    have hne : ¬k0 = k := fun he => h.1 he.symm
    simp [dset, hne, ih (by simpa [dkeys] using h.2)]

theorem dpop_append_fresh (l₁ l₂ : List (κ × α)) (k : κ) (h : k ∉ dkeys l₁) :
    dpop (l₁ ++ l₂) k = l₁ ++ dpop l₂ k := by
  induction l₁ with
  | nil => rfl
  | cons hd t ih =>
    obtain ⟨k0, v0⟩ := hd
    simp only [dkeys, List.map_cons, List.mem_cons] at h
    push_neg at h
    have hne : ¬k0 = k := fun he => h.1 he.symm
    simp only [List.cons_append, dpop, if_neg hne]
    exact congrArg _ (ih (by simpa [dkeys] using h.2))

theorem length_dpop_mem (l : List (κ × α)) (k : κ) (h : k ∈ dkeys l) :
    (dpop l k).length + 1 = l.length := by
  induction l with
  | nil => simp [dkeys] at h
  | cons hd t ih =>
    obtain ⟨k0, v0⟩ := hd
    by_cases he : k0 = k
    · simp [dpop, he]
    · simp only [dkeys, List.map_cons, List.mem_cons] at h
      rcases h with h | h
      · exact absurd h.symm he
      · simp only [dpop, if_neg he, List.length_cons]
        rw [← ih (by simpa [dkeys] using h)]

theorem dkeys_dpop_sub (l : List (κ × α)) (k k' : κ) (h : k' ∈ dkeys (dpop l k)) :
    k' ∈ dkeys l := by
  induction l with
  | nil => simp [dpop, dkeys] at h
  | cons hd t ih =>
    obtain ⟨k0, v0⟩ := hd
    by_cases he : k0 = k
    · simp only [dpop, if_pos he] at h
      simp [dkeys] at h ⊢
      tauto
    · simp only [dpop, if_neg he, dkeys, List.map_cons, List.mem_cons] at h ⊢
      rcases h with h | h
      · exact Or.inl h
      · exact Or.inr (ih (by simpa [dkeys] using h))

theorem not_mem_dkeys_dpop_nodup (l : List (κ × α)) (k : κ)
    (hnd : (dkeys l).Nodup) : k ∉ dkeys (dpop l k) := by
  induction l with
  | nil => simp [dpop, dkeys]
  | cons hd t ih =>
    obtain ⟨k0, v0⟩ := hd
    simp only [dkeys, List.map_cons, List.nodup_cons] at hnd
    by_cases he : k0 = k
    · subst he
      simp only [dpop, if_pos rfl]
      exact hnd.1
    · simp only [dpop, if_neg he, dkeys, List.map_cons, List.mem_cons]
      push_neg
      exact ⟨fun hk => he hk.symm, ih hnd.2⟩

theorem digit_char_toNat (d : ℕ) (hd : d < 10) : (Char.ofNat (48 + d)).toNat = 48 + d := by
  interval_cases d <;> decide

theorem foldl_digits_reverse (L : List ℕ) (a : ℕ) :
    L.reverse.foldl (fun x d => 10 * x + d) a = a * 10 ^ L.length + Nat.ofDigits 10 L := by
  induction L generalizing a with
  | nil => simp
  | cons d T ih =>
    simp only [List.reverse_cons, List.foldl_append, List.foldl_cons, List.foldl_nil,
      ih, Nat.ofDigits_cons, List.length_cons]
    ring

theorem foldl_digitChars (L : List ℕ) (hL : ∀ d ∈ L, d < 10) (a : ℕ) :
    (L.reverse.map (fun d => Char.ofNat (48 + d))).foldl
        (fun x c => 10 * x + (c.toNat - 48)) a =
    L.reverse.foldl (fun x d => 10 * x + d) a := by
  induction L generalizing a with
  | nil => rfl
  | cons d T ih =>
    simp only [List.reverse_cons, List.map_append, List.map_cons, List.map_nil,
      List.foldl_append, List.foldl_cons, List.foldl_nil]
    rw [ih (fun e he => hL e (List.mem_cons_of_mem _ he))]
    rw [digit_char_toNat d (hL d (List.mem_cons_self _ _))]
    simp

theorem digitCharsToNat_natToDigitChars (n : ℕ) :
    digitCharsToNat (natToDigitChars n) = n := by
  by_cases h0 : n = 0
  · subst h0; decide
  · unfold natToDigitChars digitCharsToNat
    rw [if_neg h0]
    rw [List.map_reverse] at *
    rw [← List.map_reverse]
    rw [foldl_digitChars (Nat.digits 10 n)
      (fun d hd => Nat.digits_lt_base (by norm_num) hd) 0]
    rw [foldl_digits_reverse]
    simp [Nat.ofDigits_digits]

theorem natToDigitChars_head (n : ℕ) :
    ∃ d rest, natToDigitChars n = Char.ofNat (48 + d) :: rest ∧ d < 10 := by
  by_cases h0 : n = 0
  · exact ⟨0, [], by simp [natToDigitChars, h0], by norm_num⟩
  · unfold natToDigitChars
    rw [if_neg h0]
    have hne : (Nat.digits 10 n).reverse ≠ [] := by
      simp [Nat.digits_ne_nil_iff_ne_zero.mpr h0]
    obtain ⟨d, L, hL⟩ := List.exists_cons_of_ne_nil hne
    refine ⟨d, L.map (fun e => Char.ofNat (48 + e)), by rw [hL]; rfl, ?_⟩
    have hd : d ∈ Nat.digits 10 n := by
      have : d ∈ (Nat.digits 10 n).reverse := by rw [hL]; exact List.mem_cons_self _ _
      simpa using this
    exact Nat.digits_lt_base (by norm_num) hd

theorem natToDigitChars_head_ne_minus (n : ℕ) :
    ∃ c rest, natToDigitChars n = c :: rest ∧ c ≠ '-' := by
  obtain ⟨d, rest, heq, hd⟩ := natToDigitChars_head n
  refine ⟨_, rest, heq, fun hc => ?_⟩
  have := congrArg Char.toNat hc
  rw [digit_char_toNat d hd] at this
  have h45 : ('-').toNat = 45 := by decide
  omega

theorem charsToInt_intToChars (i : ℤ) : charsToInt (intToChars i) = i := by
  unfold intToChars
  by_cases hneg : i < 0
  · rw [if_pos hneg]
    simp only [charsToInt, if_true, reduceIte, digitCharsToNat_natToDigitChars]
    omega
  · rw [if_neg hneg]
    obtain ⟨c, rest, heq, hc⟩ := natToDigitChars_head_ne_minus i.natAbs
    rw [heq]
    simp only [charsToInt, if_neg hc]
    rw [← heq, digitCharsToNat_natToDigitChars]
    omega

theorem name2idn_idn2name (sysName : PName) (i : ℤ) :
    particle_name2idn sysName (particle_idn2name sysName i) = i := by
  unfold particle_name2idn particle_idn2name
  rw [List.drop_left]
  exact charsToInt_intToChars i

theorem idn2name_injective (sysName : PName) : Function.Injective (particle_idn2name sysName) := by
  intro i j h
  have := congrArg (particle_name2idn sysName) h
  rwa [name2idn_idn2name, name2idn_idn2name] at this


/-! ### Base codec lemmas: `_serialize` then `_deserialize` is the identity -/

theorem flatPoses_length (L : List (V3 × V4)) : (flatPoses L).length = 7 * L.length := by
  induction L with
  | nil => rfl
  | cons pq t ih => simp [flatPoses, V3.toList, V4.toList, ih]; ring

theorem flatScales_length (L : List V3) : (flatScales L).length = 3 * L.length := by
  induction L with
  | nil => rfl
  | cons v t ih => simp [flatScales, V3.toList, ih]; ring

theorem slice_cons2 (a b : ℚ) (l : List ℚ) (m k : ℕ) :
    slice (a :: b :: l) (m + 2) (k + 2) = slice l m k := by
  unfold slice
  have h1 : (a :: b :: l).drop (m + 2) = l.drop m := by
    have : m + 2 = (m + 1) + 1 := rfl
    rw [this, List.drop_succ_cons, List.drop_succ_cons]
  rw [h1, Nat.add_sub_add_right]

theorem getD_cons2 (a b : ℚ) (l : List ℚ) (m : ℕ) :
    (a :: b :: l).getD (m + 2) 0 = l.getD m 0 := by
  have : m + 2 = (m + 1) + 1 := rfl
  simp [this]

theorem flatPoses_cons_shape (pq : V3 × V4) (T : List (V3 × V4)) (R : List ℚ) :
    flatPoses (pq :: T) ++ R = (pq.1.toList ++ pq.2.toList) ++ (flatPoses T ++ R) := by
  simp [flatPoses]

theorem flatPoses_drop (L : List (V3 × V4)) (R : List ℚ) (i : ℕ) (h : i < L.length) :
    (flatPoses L ++ R).drop (7 * i) = flatPoses (L.drop i) ++ R := by
  induction L generalizing i with
  | nil => simp at h
  | cons pq T ih =>
    match i with
    | 0 => simp
    | i + 1 =>
      rw [flatPoses_cons_shape]
      have h7 : (pq.1.toList ++ pq.2.toList).length = 7 := by
        simp [V3.toList, V4.toList]
      have hstep : 7 * (i + 1) = (pq.1.toList ++ pq.2.toList).length + 7 * i := by
        rw [h7]; ring
      rw [hstep, List.drop_append]
      exact ih i (by simpa using h)

theorem flatScales_drop (L : List V3) (R : List ℚ) (i : ℕ) (h : i < L.length) :
    (flatScales L ++ R).drop (3 * i) = flatScales (L.drop i) ++ R := by
  induction L generalizing i with
  | nil => simp at h
  | cons v T ih =>
    match i with
    | 0 => simp
    | i + 1 =>
      have hshape : flatScales (v :: T) ++ R = v.toList ++ (flatScales T ++ R) := by
        simp [flatScales]
      rw [hshape]
      have hstep : 3 * (i + 1) = v.toList.length + 3 * i := by
        simp [V3.toList]; ring
      rw [hstep, List.drop_append]
      exact ih i (by simpa using h)

theorem slice_take (l : List ℚ) (k : ℕ) : slice l 0 k = l.take k := by
  simp [slice]

theorem slice_flatPoses_pos (L : List (V3 × V4)) (R : List ℚ) (i : ℕ) (h : i < L.length) :
    slice (flatPoses L ++ R) (7 * i) (7 * i + 3) = (L.get ⟨i, h⟩).1.toList := by
  unfold slice
  rw [flatPoses_drop L R i h, List.drop_eq_get_cons h, flatPoses_cons_shape,
    Nat.add_sub_cancel_left, List.append_assoc]
  exact List.take_left' (by simp [V3.toList])

theorem slice_flatPoses_ori (L : List (V3 × V4)) (R : List ℚ) (i : ℕ) (h : i < L.length) :
    slice (flatPoses L ++ R) (7 * i + 3) (7 * (i + 1)) = (L.get ⟨i, h⟩).2.toList := by
  unfold slice
  have hdrop : (flatPoses L ++ R).drop (7 * i + 3) =
      (L.get ⟨i, h⟩).2.toList ++ (flatPoses (L.drop (i + 1)) ++ R) := by
    rw [← List.drop_drop, flatPoses_drop L R i h, List.drop_eq_get_cons h,
      flatPoses_cons_shape]
    have h3 : (3 : ℕ) = (L.get ⟨i, h⟩).1.toList.length := by simp [V3.toList]
    rw [List.append_assoc, h3, List.drop_left]
  rw [hdrop]
  have hk : 7 * (i + 1) - (7 * i + 3) = 4 := by omega
  rw [hk]
  exact List.take_left' (by simp [V4.toList])

theorem slice_flatScales (L : List V3) (R : List ℚ) (i : ℕ) (h : i < L.length) :
    slice (flatScales L ++ R) (3 * i) (3 * (i + 1)) = (L.get ⟨i, h⟩).toList := by
  unfold slice
  rw [flatScales_drop L R i h, List.drop_eq_get_cons h]
  have hshape : flatScales (L.get ⟨i, h⟩ :: L.drop (i + 1)) ++ R =
      (L.get ⟨i, h⟩).toList ++ (flatScales (L.drop (i + 1)) ++ R) := by
    simp [flatScales]
  rw [hshape]
  have hk : 3 * (i + 1) - 3 * i = 3 := by omega
  rw [hk]
  exact List.take_left' (by simp [V3.toList])

theorem slice_append_shift (X Y : List ℚ) (a b : ℕ) :
    slice (X ++ Y) (X.length + a) (X.length + b) = slice Y a b := by
  unfold slice
  rw [List.drop_append]
  congr 1
  omega

theorem deser_poses_eq (m nq : ℚ) (P : List (V3 × V4)) (R : List ℚ) :
    (List.range P.length).map (fun i =>
      (v3OfList (slice (m :: nq :: (flatPoses P ++ R)) (7 * i + 2) (7 * i + 2 + 3)),
       v4OfList (slice (m :: nq :: (flatPoses P ++ R)) (7 * i + 2 + 3) (7 * (i + 1) + 2)))) = P := by
  apply List.ext_get
  · simp
  · intro i h1 h2
    simp only [List.get_map, List.get_range]
    have hi : i < P.length := by simpa using h1
    have e2 : 7 * i + 2 + 3 = (7 * i + 3) + 2 := by omega
    have e1 : 7 * i + 2 = (7 * i) + 2 := rfl
    have e3 : 7 * (i + 1) + 2 = (7 * (i + 1)) + 2 := rfl
    rw [e1, e2, e3, slice_cons2, slice_cons2,
      slice_flatPoses_pos P R i hi, slice_flatPoses_ori P R i hi,
      v3OfList_toList, v4OfList_toList]

theorem deser_scales_eq (m nq : ℚ) (P : List (V3 × V4)) (S : List V3) (T : List ℚ)
    (hn : P.length = S.length) :
    (List.range S.length).map (fun i =>
      v3OfList (slice (m :: nq :: (flatPoses P ++ (flatScales S ++ T)))
        (3 * i + (S.length * 7 + 2)) (3 * (i + 1) + (S.length * 7 + 2)))) = S := by
  apply List.ext_get
  · simp
  · intro i h1 h2
    simp only [List.get_map, List.get_range]
    have hi : i < S.length := by simpa using h1
    have e1 : 3 * i + (S.length * 7 + 2) = ((flatPoses P).length + 3 * i) + 2 := by
      rw [flatPoses_length, hn]; omega
    have e2 : 3 * (i + 1) + (S.length * 7 + 2) = ((flatPoses P).length + 3 * (i + 1)) + 2 := by
      rw [flatPoses_length, hn]; omega
    rw [e1, e2, slice_cons2, slice_append_shift, slice_flatScales S T i hi, v3OfList_toList]

theorem drop_cons2 (a b : ℚ) (l : List ℚ) (m : ℕ) :
    (a :: b :: l).drop (m + 2) = l.drop m := by
  have : m + 2 = (m + 1) + 1 := rfl
  rw [this, List.drop_succ_cons, List.drop_succ_cons]

theorem drop_body_template (m nq : ℚ) (P : List (V3 × V4)) (S : List V3) (T : List ℚ)
    (hn : S.length = P.length) :
    (m :: nq :: (flatPoses P ++ (flatScales S ++ T))).drop (2 + P.length * 10) = T := by
  have e1 : 2 + P.length * 10 = (P.length * 10) + 2 := by omega
  rw [e1, drop_cons2]
  have e2 : P.length * 10 = (flatPoses P).length + 3 * P.length := by
    rw [flatPoses_length]; ring
  rw [e2, List.drop_append]
  have e3 : 3 * P.length = (flatScales S).length := by rw [flatScales_length, hn]
  rw [e3, List.drop_left]

theorem deserialize_serialize_base_some (st : MPSState) (tp : V3 × V4) (tsc : V3)
    (hp : st.poses.length = st.n_particles)
    (hs : st.scales.length = st.n_particles)
    (htp : st.template_pose = some tp) (hts : st.template_scale = some tsc)
    (ss : ℕ) (hss : ss > 2 + st.n_particles * 10) :
    deserialize_base ss (serialize_base st) = (st, 2 + st.n_particles * 10 + 10) := by
  obtain ⟨m0, n0, P0, S0, tp0, ts0⟩ := st
  simp only at hp hs htp hts hss
  subst htp
  subst hts
  subst hp
  have hv : serialize_base ⟨m0, P0.length, P0, S0, some tp, some tsc⟩ =
      m0 :: ((P0.length : ℕ) : ℚ) ::
        (flatPoses P0 ++ (flatScales S0 ++
          (tp.1.toList ++ (tp.2.toList ++ tsc.toList)))) := by
    unfold serialize_base
    simp
  rw [hv]
  unfold deserialize_base
  have hn : (ratToInt ((m0 :: ((P0.length : ℕ) : ℚ) ::
      (flatPoses P0 ++ (flatScales S0 ++
        (tp.1.toList ++ (tp.2.toList ++ tsc.toList))))).getD 1 0)).toNat = P0.length := by
    simp only [List.getD_cons_succ, List.getD_cons_zero]
    rw [ratToInt_natCast]
    rfl
  rw [hn]
  rw [if_pos hss]
  have hdropT := drop_body_template m0 ((P0.length : ℕ) : ℚ) P0 S0
    (tp.1.toList ++ (tp.2.toList ++ tsc.toList)) hs
  have hsliceT1 : slice (m0 :: ((P0.length : ℕ) : ℚ) ::
      (flatPoses P0 ++ (flatScales S0 ++ (tp.1.toList ++ (tp.2.toList ++ tsc.toList)))))
      (2 + P0.length * 10) (2 + P0.length * 10 + 3) = tp.1.toList := by
    unfold slice
    rw [hdropT]
    have : 2 + P0.length * 10 + 3 - (2 + P0.length * 10) = 3 := by omega
    rw [this]
    exact List.take_left' (by simp [V3.toList])
  have hsliceT2 : slice (m0 :: ((P0.length : ℕ) : ℚ) ::
      (flatPoses P0 ++ (flatScales S0 ++ (tp.1.toList ++ (tp.2.toList ++ tsc.toList)))))
      (2 + P0.length * 10 + 3) (2 + P0.length * 10 + 7) = tp.2.toList := by
    unfold slice
    have hcount : 2 + P0.length * 10 + 7 - (2 + P0.length * 10 + 3) = 4 := by omega
    rw [hcount, ← List.drop_drop, hdropT]
    have h3 : tp.1.toList.length = 3 := by simp [V3.toList]
    rw [← h3, List.drop_left]
    exact List.take_left' (by simp [V4.toList])
  have hsliceT3 : slice (m0 :: ((P0.length : ℕ) : ℚ) ::
      (flatPoses P0 ++ (flatScales S0 ++ (tp.1.toList ++ (tp.2.toList ++ tsc.toList)))))
      (2 + P0.length * 10 + 7) (2 + P0.length * 10 + 10) = tsc.toList := by
    unfold slice
    have hcount : 2 + P0.length * 10 + 10 - (2 + P0.length * 10 + 7) = 3 := by omega
    rw [hcount, ← List.drop_drop, hdropT]
    have hshape : tp.1.toList ++ (tp.2.toList ++ tsc.toList) =
        (tp.1.toList ++ tp.2.toList) ++ tsc.toList := by
      rw [List.append_assoc]
    rw [hshape]
    have h7 : (tp.1.toList ++ tp.2.toList).length = 7 := by simp [V3.toList, V4.toList]
    rw [← h7, List.drop_left]
    have h3 : tsc.toList.length = 3 := by simp [V3.toList]
    rw [← h3, List.take_length]
  rw [hsliceT1, hsliceT2, hsliceT3]
  have hposes := deser_poses_eq m0 ((P0.length : ℕ) : ℚ) P0
    (flatScales S0 ++ (tp.1.toList ++ (tp.2.toList ++ tsc.toList)))
  have hscales := deser_scales_eq m0 ((P0.length : ℕ) : ℚ) P0 S0
    (tp.1.toList ++ (tp.2.toList ++ tsc.toList)) hs.symm
  rw [hs] at hscales
  rw [Prod.mk.injEq]
  refine ⟨?_, rfl⟩
  rw [MPSState.mk.injEq]
  refine ⟨by simp, rfl, hposes, hscales, rfl, rfl⟩

theorem deserialize_serialize_base_none (st : MPSState)
    (hp : st.poses.length = st.n_particles)
    (hs : st.scales.length = st.n_particles)
    (htp : st.template_pose = none) (hts : st.template_scale = none)
    (ss : ℕ) (hss : ¬ss > 2 + st.n_particles * 10) :
    deserialize_base ss (serialize_base st) = (st, 2 + st.n_particles * 10) := by
  obtain ⟨m0, n0, P0, S0, tp0, ts0⟩ := st
  simp only at hp hs htp hts hss
  subst htp
  subst hts
  subst hp
  have hv : serialize_base ⟨m0, P0.length, P0, S0, none, none⟩ =
      m0 :: ((P0.length : ℕ) : ℚ) :: (flatPoses P0 ++ (flatScales S0 ++ [])) := by
    unfold serialize_base
    simp
  rw [hv]
  unfold deserialize_base
  have hn : (ratToInt ((m0 :: ((P0.length : ℕ) : ℚ) ::
      (flatPoses P0 ++ (flatScales S0 ++ []))).getD 1 0)).toNat = P0.length := by
    simp only [List.getD_cons_succ, List.getD_cons_zero]
    rw [ratToInt_natCast]
    rfl
  rw [hn]
  rw [if_neg hss]
  have hposes := deser_poses_eq m0 ((P0.length : ℕ) : ℚ) P0 (flatScales S0 ++ [])
  have hscales := deser_scales_eq m0 ((P0.length : ℕ) : ℚ) P0 S0 [] hs.symm
  rw [hs] at hscales
  rw [Prod.mk.injEq]
  refine ⟨?_, rfl⟩
  rw [MPSState.mk.injEq]
  refine ⟨by simp, rfl, hposes, hscales, rfl, rfl⟩

theorem zip_self_update (l : List (PName × Particle)) :
    (l.zip ((l.map (fun pr => (pr.2.pos, pr.2.ori))).zip (l.map (fun pr => pr.2.scale)))).map
      (fun pr => (pr.1.1, { pr.1.2 with pos := pr.2.1.1, ori := pr.2.1.2, scale := pr.2.2 })) = l := by
  induction l with
  | nil => rfl
  | cons hd t ih =>
    obtain ⟨nm, p⟩ := hd
    obtain ⟨pn, pp, ppos, pori, psc, pv⟩ := p
    simpa using ih

/-- `_load_state(_dump_state())` is the identity on the registry. -/
theorem load_dump_base (s : SysState) : load_base s (dump_base s) = .ok s := by
  obtain ⟨parts, mn, mx, mi, po, gp, go⟩ := s
  unfold load_base dump_base
  simp only [if_neg (by simp : ¬(parts.length ≠ (parts.length : ℕ)))]
  cases po with
  | none =>
    simp only [Option.map_none']
    rw [Except.ok.injEq, SysState.mk.injEq]
    refine ⟨zip_self_update parts, rfl, rfl, by simp [ratToInt_intCast], rfl, rfl, rfl⟩
  | some t =>
    obtain ⟨tpos, tori, tsc, tbb⟩ := t
    simp only [Option.map_some']
    rw [Except.ok.injEq, SysState.mk.injEq]
    refine ⟨zip_self_update parts, rfl, rfl, by simp [ratToInt_intCast], by simp, rfl, rfl⟩

/-- C4: on a registry with `N` particles (no groups), the pipeline
`dumpState → serialize → deserialize → loadState` restores every
particle's local pose and scale and the exact `max_particle_idn`; in
fact it restores the whole state. -/
theorem C4_registry_roundtrip (s : SysState) :
    ∃ s', load_base s
        (deserialize_base (state_size_base s) (serialize_base (dump_base s))).1 = .ok s' ∧
      s'.particles.map (fun q => (q.1, q.2.pos, q.2.ori, q.2.scale)) =
        s.particles.map (fun q => (q.1, q.2.pos, q.2.ori, q.2.scale)) ∧
      s'.maxParticleIdn = s.maxParticleIdn := by
  refine ⟨s, ?_, rfl, rfl⟩
  have hkey : (deserialize_base (state_size_base s) (serialize_base (dump_base s))).1 =
      dump_base s := by
    cases hto : s.particleObject with
    | some t =>
      have hss : state_size_base s > 2 + (dump_base s).n_particles * 10 := by
        unfold state_size_base
        rw [hto]
        show 10 * s.particles.length + 2 + 10 > 2 + s.particles.length * 10
        omega
      rw [deserialize_serialize_base_some (dump_base s) (t.pos, t.ori) t.scale
        (by simp [dump_base]) (by simp [dump_base])
        (by simp [dump_base, hto]) (by simp [dump_base, hto])
        (state_size_base s) hss]
    | none =>
      have hss : ¬state_size_base s > 2 + (dump_base s).n_particles * 10 := by
        unfold state_size_base
        rw [hto]
        show ¬10 * s.particles.length + 2 + 0 > 2 + s.particles.length * 10
        omega
      rw [deserialize_serialize_base_none (dump_base s)
        (by simp [dump_base]) (by simp [dump_base])
        (by simp [dump_base, hto]) (by simp [dump_base, hto])
        (state_size_base s) hss]
  rw [hkey, load_dump_base]

/-! ### Serialized vector length -/

theorem serialize_dump_base_length (s : SysState) :
    (serialize_base (dump_base s)).length = state_size_base s := by
  cases hto : s.particleObject with
  | some t =>
    unfold serialize_base dump_base state_size_base
    rw [hto]
    simp [flatPoses_length, flatScales_length, V3.toList, V4.toList]
    ring
  | none =>
    unfold serialize_base dump_base state_size_base
    rw [hto]
    simp [flatPoses_length, flatScales_length]
    ring

theorem flatGroups_length (s : SysState) (gl : List (PName × GroupInfo)) :
    (flatGroups s gl).length =
      (gl.map (fun pr => 2 + pr.2.particle_idns.length +
        pr.2.particle_attached_link_names.length)).sum := by
  induction gl with
  | nil => rfl
  | cons hd t ih =>
    obtain ⟨g, gi⟩ := hd
    simp only [flatGroups, List.length_append, List.length_cons, List.length_map,
      List.length_nil, List.map_cons, List.sum_cons, ih]

theorem sum_two_add (l : List (PName × List (PName × Particle))) :
    (l.map (fun pr => 2 + pr.2.length + pr.2.length)).sum =
      2 * l.length + (l.map (fun pr => 2 * pr.2.length)).sum := by
  induction l with
  | nil => rfl
  | cons hd t ih =>
    simp only [List.map_cons, List.sum_cons, List.length_cons, ih]
    ring

theorem serialize_dump_visual_length (sysName : PName) (s : SysState) :
    (serialize_visual s (dump_visual sysName s)).length = state_size_visual s := by
  unfold serialize_visual state_size_visual
  rw [List.length_append, List.length_cons, flatGroups_length]
  have hbase : (dump_visual sysName s).toMPSState = dump_base s := rfl
  rw [hbase, serialize_dump_base_length]
  have hgl : (dump_visual sysName s).groups.map
      (fun pr => 2 + pr.2.particle_idns.length + pr.2.particle_attached_link_names.length) =
      s.groupParticles.map (fun pr => 2 + pr.2.length + pr.2.length) := by
    unfold dump_visual
    rw [List.map_map]
    congr 1
    funext pr
    simp
  rw [hgl, sum_two_add]
  omega

/-! ### Removal operations -/

theorem popFromFirstGroup_keys (gs : List (PName × List (PName × Particle))) (nm : PName) :
    dkeys (popFromFirstGroup gs nm) = dkeys gs := by
  induction gs with
  | nil => rfl
  | cons hd t ih =>
    obtain ⟨g, gd⟩ := hd
    by_cases hmem : nm ∈ dkeys gd
    · simp only [popFromFirstGroup, if_pos hmem]
      rfl
    · simp only [popFromFirstGroup, if_neg hmem]
      show g :: dkeys (popFromFirstGroup t nm) = g :: dkeys t
      rw [ih]

theorem remove_fold_all (l : List (PName × Particle)) :
    ∀ s : SysState, s.particles = l →
    ∃ s', (dkeys l).foldlM (fun st nm => remove_particle st nm) s = .ok s' ∧
      s'.particles = [] ∧
      dkeys s'.groupParticles = dkeys s.groupParticles ∧
      s'.groupObjects = s.groupObjects ∧
      s'.maxParticleIdn = s.maxParticleIdn ∧
      s'.minScale = s.minScale ∧ s'.maxScale = s.maxScale ∧
      s'.particleObject = s.particleObject := by
  induction l with
  | nil =>
    intro s hs
    exact ⟨s, rfl, hs, rfl, rfl, rfl, rfl, rfl, rfl⟩
  | cons hd t ih =>
    intro s hs
    obtain ⟨nm, p⟩ := hd
    have hmem : nm ∈ dkeys s.particles := by
      rw [hs]
      exact List.mem_cons_self nm (dkeys t)
    have hpop : dpop s.particles nm = t := by
      rw [hs]
      simp only [dpop, if_true, reduceIte]
    have hstep : remove_particle s nm = .ok
        { s with particles := dpop s.particles nm,
                 groupParticles := popFromFirstGroup s.groupParticles nm } := by
      unfold remove_particle
      rw [if_pos hmem]
    obtain ⟨s', hfold, h1, h2, h3, h4, h5, h6, h7⟩ :=
      ih { s with particles := dpop s.particles nm,
                  groupParticles := popFromFirstGroup s.groupParticles nm } hpop
    refine ⟨s', ?_, h1, ?_, h3, h4, h5, h6, h7⟩
    · show (dkeys ((nm, p) :: t)).foldlM (fun st nm => remove_particle st nm) s = .ok s'
      have hk : dkeys ((nm, p) :: t) = nm :: dkeys t := rfl
      rw [hk, List.foldlM_cons, hstep, except_bind_ok]
      exact hfold
    · rw [h2]
      exact popFromFirstGroup_keys s.groupParticles nm

theorem remove_all_particles_spec (s : SysState) :
    ∃ s', remove_all_particles s = .ok s' ∧ s'.particles = [] ∧
      dkeys s'.groupParticles = dkeys s.groupParticles ∧
      s'.groupObjects = s.groupObjects ∧
      s'.maxParticleIdn = s.maxParticleIdn ∧
      s'.minScale = s.minScale ∧ s'.maxScale = s.maxScale ∧
      s'.particleObject = s.particleObject :=
  remove_fold_all s.particles s rfl

/-- C2 counterexample: on a system holding one attachment group with one
particle, `reset()` leaves the group name and the group-to-host record in
place (while it does empty the particle collection), so the claim that
either of `reset()`/`clear()` leaves no group name fails for `reset()`. -/
theorem C2_reset_keeps_groups_counterexample :
    (resetSystem exStateGP).map
      (fun s => (s.particles.length, dkeys s.groupParticles, s.groupObjects.length)) =
    Except.ok (0, [exHost.name], 1) := by decide

/-- C2 (amended): `clear()` fully empties both the particle collection
and the group collections; `reset()` fully empties the particle
collection and resets the allocator, but the group names and
group-to-host records persist (each group is merely left empty). -/
theorem C2_reset_clear_amended (s : SysState) :
    (∃ s₁, resetSystem s = .ok s₁ ∧ s₁.particles = [] ∧ s₁.maxParticleIdn = -1 ∧
      dkeys s₁.groupParticles = dkeys s.groupParticles ∧
      s₁.groupObjects = s.groupObjects) ∧
    (∃ s₂, clearSystem s = .ok s₂ ∧ s₂.particles = [] ∧ s₂.groupParticles = [] ∧
      s₂.groupObjects = []) := by
  obtain ⟨s', hall, h1, h2, h3, _, _, _, _⟩ := remove_all_particles_spec s
  constructor
  · refine ⟨{ s' with maxParticleIdn := -1 }, ?_, h1, rfl, h2, h3⟩
    unfold resetSystem
    rw [show remove_all_particles s = .ok s' from hall, except_bind_ok]
    rfl
  · refine ⟨{ s' with groupParticles := [], groupObjects := [] }, ?_, h1, rfl, rfl⟩
    unfold clearSystem clear_base
    rw [show remove_all_particles s = .ok s' from hall, except_bind_ok]
    rfl

unseal Rat.mul Rat.inv Rat.add Rat.sub in
/-- C1: at a concrete placement (one particle at the origin with identity
orientation, unit scale, template bbox height 2), the code creates the
particle at the unshifted position when `_CLIP_INTO_OBJECTS` is false,
and at the position shifted by −1 along +Z (half the bbox height,
inward) when it is true — the claim (and the function's own docstring)
says the outward (+Z) offset happens exactly when the flag is false. -/
theorem C1_clip_offset_evaluation :
    (generate_group_particles exSysName exDraw id update_particle_scaling_default false
        exStateG exHost.name [⟨0, 0, 0⟩] none (some [⟨1, 1, 1⟩]) none []).map
      (fun s => s.particles.map (fun q => q.2.pos)) = Except.ok [⟨0, 0, 0⟩] ∧
    (generate_group_particles exSysName exDraw id update_particle_scaling_default true
        exStateG exHost.name [⟨0, 0, 0⟩] none (some [⟨1, 1, 1⟩]) none []).map
      (fun s => s.particles.map (fun q => q.2.pos)) = Except.ok [⟨0, 0, -1⟩] := by
  constructor <;> decide

/-! ### `add_particle` and identifier allocation -/

theorem add_particle_ok (sysName : PName) (draw : V3 → V3 → V3) (s : SysState)
    (pp : PrimPath) (idn : Option ℤ) (sc : Option V3) (pos : Option V3) (ori : Option V4)
    (tmpl : TemplateObj) (hpo : s.particleObject = some tmpl)
    (hfresh : particle_idn2name sysName (idn.getD (s.maxParticleIdn + 1)) ∉ dkeys s.particles) :
    add_particle sysName draw s pp idn sc pos ori = .ok
      (mkAddedParticle sysName draw s (idn.getD (s.maxParticleIdn + 1)) pp sc pos ori tmpl,
       addedState sysName draw s (idn.getD (s.maxParticleIdn + 1)) pp sc pos ori tmpl) := by
  unfold add_particle get_next_particle_unique_idn addedState mkAddedParticle
  rw [if_neg hfresh, hpo]

theorem add_particle_err (sysName : PName) (draw : V3 → V3 → V3) (s : SysState)
    (pp : PrimPath) (idn : Option ℤ) (sc : Option V3) (pos : Option V3) (ori : Option V4)
    (hmem : particle_idn2name sysName (idn.getD (s.maxParticleIdn + 1)) ∈ dkeys s.particles) :
    add_particle sysName draw s pp idn sc pos ori = .error .duplicateParticle := by
  unfold add_particle get_next_particle_unique_idn
  rw [if_pos hmem]

theorem addedState_maxIdn (sysName : PName) (draw : V3 → V3 → V3) (s : SysState)
    (idnv : ℤ) (pp : PrimPath) (sc : Option V3) (pos : Option V3) (ori : Option V4)
    (tmpl : TemplateObj) :
    (addedState sysName draw s idnv pp sc pos ori tmpl).maxParticleIdn =
      s.maxParticleIdn + 1 := rfl

theorem addedState_particles (sysName : PName) (draw : V3 → V3 → V3) (s : SysState)
    (idnv : ℤ) (pp : PrimPath) (sc : Option V3) (pos : Option V3) (ori : Option V4)
    (tmpl : TemplateObj) :
    (addedState sysName draw s idnv pp sc pos ori tmpl).particles =
      s.particles ++ [(particle_idn2name sysName idnv,
        mkAddedParticle sysName draw s idnv pp sc pos ori tmpl)] := rfl

theorem add_particle_uninit (sysName : PName) (draw : V3 → V3 → V3) (s : SysState)
    (pp : PrimPath) (idn : Option ℤ) (sc : Option V3) (pos : Option V3) (ori : Option V4)
    (hfresh : particle_idn2name sysName (idn.getD (s.maxParticleIdn + 1)) ∉ dkeys s.particles)
    (hpo : s.particleObject = none) :
    add_particle sysName draw s pp idn sc pos ori = .error .uninitialized := by
  unfold add_particle get_next_particle_unique_idn
  rw [if_neg hfresh, hpo]

theorem add_particle_increments (sysName : PName) (draw : V3 → V3 → V3) (s : SysState)
    (pp : PrimPath) (idn : Option ℤ) (sc : Option V3) (pos : Option V3) (ori : Option V4)
    (p : Particle) (s' : SysState)
    (h : add_particle sysName draw s pp idn sc pos ori = .ok (p, s')) :
    s'.maxParticleIdn = s.maxParticleIdn + 1 := by
  by_cases hmem : particle_idn2name sysName (idn.getD (s.maxParticleIdn + 1)) ∈ dkeys s.particles
  · rw [add_particle_err sysName draw s pp idn sc pos ori hmem] at h
    simp at h
  · cases hpo : s.particleObject with
    | none =>
      rw [add_particle_uninit sysName draw s pp idn sc pos ori hmem hpo] at h
      simp at h
    | some tmpl =>
      rw [add_particle_ok sysName draw s pp idn sc pos ori tmpl hpo hmem] at h
      rw [Except.ok.injEq] at h
      have := congrArg (fun x : Particle × SysState => x.2.maxParticleIdn) h
      simpa [addedState_maxIdn] using this.symm

theorem addSeq_inv (sysName : PName) (draw : V3 → V3 → V3) (tmpl : TemplateObj) :
    ∀ (args : List AddArgs) (t : ℕ) (s : SysState),
    s.particleObject = some tmpl →
    dkeys s.particles = (List.range t).map (fun (j : ℕ) => particle_idn2name sysName (j : ℤ)) →
    s.maxParticleIdn = (t : ℤ) - 1 →
    ∃ s', addSeq sysName draw s args = .ok s' ∧
      dkeys s'.particles =
        (List.range (t + args.length)).map (fun (j : ℕ) => particle_idn2name sysName (j : ℤ)) ∧
      s'.maxParticleIdn = ((t + args.length : ℕ) : ℤ) - 1 ∧
      s'.particleObject = some tmpl := by
  intro args
  induction args with
  | nil =>
    intro t s hpo hk hm
    exact ⟨s, rfl, by simpa using hk, by simpa using hm, hpo⟩
  | cons a rest ih =>
    intro t s hpo hk hm
    have hidv : (none : Option ℤ).getD (s.maxParticleIdn + 1) = (t : ℤ) := by
      simp only [Option.getD_none]
      omega
    have hfresh : particle_idn2name sysName
        ((none : Option ℤ).getD (s.maxParticleIdn + 1)) ∉ dkeys s.particles := by
      rw [hidv, hk]
      intro hmem
      obtain ⟨j, hj, hje⟩ := List.mem_map.mp hmem
      have hji := idn2name_injective sysName hje
      have hjt : j < t := List.mem_range.mp hj
      have : j = t := by exact_mod_cast hji
      omega
    have hstep := add_particle_ok sysName draw s a.1 none a.2.1 a.2.2.1 a.2.2.2 tmpl hpo hfresh
    obtain ⟨s', hfold, hk', hm', hpo'⟩ := ih (t + 1)
      (addedState sysName draw s ((none : Option ℤ).getD (s.maxParticleIdn + 1))
        a.1 a.2.1 a.2.2.1 a.2.2.2 tmpl)
      hpo
      (by
        show dkeys (s.particles ++ _) = _
        rw [dkeys_append, hk, hidv]
        show _ = (List.range (t + 1)).map (fun (j : ℕ) => particle_idn2name sysName (j : ℤ))
        rw [List.range_succ, List.map_append]
        rfl)
      (by
        show s.maxParticleIdn + 1 = ((t + 1 : ℕ) : ℤ) - 1
        push_cast
        omega)
    refine ⟨s', ?_, ?_, ?_, hpo'⟩
    · show addSeq sysName draw s (a :: rest) = .ok s'
      unfold addSeq
      rw [List.foldlM_cons, hstep, except_map_ok, except_bind_ok]
      exact hfold
    · rw [hk']
      have : t + 1 + rest.length = t + (a :: rest).length := by simp; omega
      rw [this]
    · rw [hm']
      have : t + 1 + rest.length = t + (a :: rest).length := by simp; omega
      rw [this]

/-- C5: starting from an initialized system, any sequence of
`add_particle` calls without an explicit `idn` succeeds, allocates
exactly the identifiers 0, 1, …, n−1 in order (strictly increasing), and
`particle_name2idn (particle_idn2name i) = i` for every identifier `i`
so used. -/
theorem C5_alloc_monotone_roundtrip (sysName : PName) (draw : V3 → V3 → V3)
    (tmpl : TemplateObj) (args : List AddArgs) :
    ∃ s', addSeq sysName draw (initSystem tmpl) args = .ok s' ∧
      dkeys s'.particles =
        (List.range args.length).map (fun (j : ℕ) => particle_idn2name sysName (j : ℤ)) ∧
      List.Pairwise (fun i j : ℤ => i < j)
        ((List.range args.length).map (fun (j : ℕ) => (j : ℤ))) ∧
      ∀ i ∈ (List.range args.length).map (fun (j : ℕ) => (j : ℤ)),
        particle_name2idn sysName (particle_idn2name sysName i) = i := by
  obtain ⟨s', h1, h2, h3, _⟩ := addSeq_inv sysName draw tmpl args 0 (initSystem tmpl)
    rfl (by simp [initSystem, dkeys]) (by simp [initSystem])
  refine ⟨s', h1, by simpa using h2, ?_, fun i _ => name2idn_idn2name sysName i⟩
  rw [List.pairwise_map]
  exact (List.pairwise_lt_range args.length).imp (fun h => by exact_mod_cast h)

theorem addSeq_fresh_range (sysName : PName) (draw : V3 → V3 → V3)
    (tmpl : TemplateObj) (pp : PrimPath) :
    ∀ (c : ℕ) (s : SysState),
    s.particleObject = some tmpl →
    (∀ j : ℤ, s.maxParticleIdn < j → j ≤ s.maxParticleIdn + c →
      particle_idn2name sysName j ∉ dkeys s.particles) →
    ∃ s', addSeq sysName draw s (List.replicate c (pp, none, none, none)) = .ok s' ∧
      s'.maxParticleIdn = s.maxParticleIdn + c ∧
      dkeys s'.particles = dkeys s.particles ++
        (List.range c).map (fun (j : ℕ) => particle_idn2name sysName (s.maxParticleIdn + 1 + j)) ∧
      s'.particleObject = some tmpl := by
  intro c
  induction c with
  | zero =>
    intro s hpo _
    exact ⟨s, rfl, by simp, by simp, hpo⟩
  | succ c ih =>
    intro s hpo hfr
    have hidv : (none : Option ℤ).getD (s.maxParticleIdn + 1) = s.maxParticleIdn + 1 := rfl
    have hfresh : particle_idn2name sysName
        ((none : Option ℤ).getD (s.maxParticleIdn + 1)) ∉ dkeys s.particles := by
      rw [hidv]
      exact hfr (s.maxParticleIdn + 1) (by omega) (by push_cast; omega)
    have hstep := add_particle_ok sysName draw s pp none none none none tmpl hpo hfresh
    obtain ⟨s', hfold, hm', hk', hpo'⟩ := ih
      (addedState sysName draw s ((none : Option ℤ).getD (s.maxParticleIdn + 1))
        pp none none none tmpl)
      hpo
      (by
        intro j hj1 hj2
        rw [addedState_maxIdn] at hj1 hj2
        show particle_idn2name sysName j ∉ dkeys (s.particles ++ _)
        rw [dkeys_append]
        simp only [List.mem_append]
        push_neg
        refine ⟨hfr j (by omega) (by push_cast at hj2 ⊢; omega), ?_⟩
        simp only [dkeys, List.map_cons, List.map_nil, List.mem_singleton]
        rw [hidv]
        intro he
        have := idn2name_injective sysName he
        omega)
    refine ⟨s', ?_, ?_, ?_, hpo'⟩
    · show addSeq sysName draw s (List.replicate (c + 1) (pp, none, none, none)) = .ok s'
      rw [List.replicate_succ]
      unfold addSeq
      rw [List.foldlM_cons, hstep, except_map_ok, except_bind_ok]
      exact hfold
    · rw [hm']
      show s.maxParticleIdn + 1 + (c : ℤ) = s.maxParticleIdn + ((c + 1 : ℕ) : ℤ)
      push_cast
      omega
    · rw [hk', addedState_particles, addedState_maxIdn, dkeys_append]
      show (dkeys s.particles ++ [particle_idn2name sysName
          ((none : Option ℤ).getD (s.maxParticleIdn + 1))]) ++ _ = _
      rw [hidv, List.append_assoc, List.singleton_append, List.range_succ_eq_map,
        List.map_cons, List.map_map]
      refine congrArg (fun l => dkeys s.particles ++ l) ?_
      refine congrArg₂ List.cons ?_ ?_
      · congr 1
        push_cast
        omega
      · congr 1
        funext j
        show particle_idn2name sysName (s.maxParticleIdn + 1 + 1 + (j : ℤ)) =
          particle_idn2name sysName (s.maxParticleIdn + 1 + ((j + 1 : ℕ) : ℤ))
        congr 1
        push_cast
        omega

/-- C9: every successful `add_particle` advances `max_particle_idn` by
exactly one, whether or not an explicit `idn` was passed; consequently,
after adding a particle with explicit `idn = k > max_particle_idn + 1`,
the high-water mark is below the maximum assigned identifier, and the
sequence of `k − max_particle_idn − 2` further `add_particle` calls
without an explicit idn all succeed while the next one derives the name
already used for `k` and fails with the duplicate-particle error. -/
theorem C9_increment_and_eventual_duplicate (sysName : PName) (draw : V3 → V3 → V3)
    (s : SysState) (tmpl : TemplateObj) (k : ℤ) (pp : PrimPath)
    (sc pos : Option V3) (ori : Option V4)
    (htmpl : s.particleObject = some tmpl)
    (hk : s.maxParticleIdn + 1 < k)
    (hupper : ∀ j : ℤ, s.maxParticleIdn < j →
      particle_idn2name sysName j ∉ dkeys s.particles) :
    (∀ (s₀ : SysState) (pp₀ : PrimPath) (idn₀ : Option ℤ) (sc₀ pos₀ : Option V3)
        (ori₀ : Option V4) (p : Particle) (s₀' : SysState),
      add_particle sysName draw s₀ pp₀ idn₀ sc₀ pos₀ ori₀ = .ok (p, s₀') →
      s₀'.maxParticleIdn = s₀.maxParticleIdn + 1) ∧
    ∃ p s₁ s₂, add_particle sysName draw s pp (some k) sc pos ori = .ok (p, s₁) ∧
      s₁.maxParticleIdn = s.maxParticleIdn + 1 ∧
      s₁.maxParticleIdn < k ∧
      particle_idn2name sysName k ∈ dkeys s₁.particles ∧
      addSeq sysName draw s₁
        (List.replicate (k - s.maxParticleIdn - 2).toNat (pp, none, none, none)) = .ok s₂ ∧
      add_particle sysName draw s₂ pp none none none none = .error .duplicateParticle := by
  refine ⟨fun s₀ pp₀ idn₀ sc₀ pos₀ ori₀ p s₀' h =>
    add_particle_increments sysName draw s₀ pp₀ idn₀ sc₀ pos₀ ori₀ p s₀' h, ?_⟩
  have hkv : (some k).getD (s.maxParticleIdn + 1) = k := rfl
  have hfreshk : particle_idn2name sysName ((some k).getD (s.maxParticleIdn + 1)) ∉
      dkeys s.particles := by
    rw [hkv]
    exact hupper k (by omega)
  have hstep := add_particle_ok sysName draw s pp (some k) sc pos ori tmpl htmpl hfreshk
  have hc : ((k - s.maxParticleIdn - 2).toNat : ℤ) = k - s.maxParticleIdn - 2 := by omega
  have hmax1 : (addedState sysName draw s ((some k).getD (s.maxParticleIdn + 1))
      pp sc pos ori tmpl).maxParticleIdn = s.maxParticleIdn + 1 := addedState_maxIdn ..
  obtain ⟨s₂, hfold, hm₂, hk₂, hpo₂⟩ := addSeq_fresh_range sysName draw tmpl pp
    (k - s.maxParticleIdn - 2).toNat
    (addedState sysName draw s ((some k).getD (s.maxParticleIdn + 1)) pp sc pos ori tmpl)
    htmpl
    (by
      intro j hj1 hj2
      rw [hmax1] at hj1 hj2
      rw [addedState_particles]
      show particle_idn2name sysName j ∉ dkeys (s.particles ++ _)
      rw [dkeys_append]
      simp only [List.mem_append]
      push_neg
      have hjk : j < k := by
        rw [hc] at hj2
        omega
      refine ⟨hupper j (by omega), ?_⟩
      simp only [dkeys, List.map_cons, List.map_nil, List.mem_singleton, hkv]
      intro he
      have := idn2name_injective sysName he
      omega)
  refine ⟨mkAddedParticle sysName draw s ((some k).getD (s.maxParticleIdn + 1)) pp sc pos ori tmpl,
    addedState sysName draw s ((some k).getD (s.maxParticleIdn + 1)) pp sc pos ori tmpl,
    s₂, hstep, hmax1, by rw [hmax1]; omega, ?_, hfold, ?_⟩
  · rw [addedState_particles]
    show particle_idn2name sysName k ∈ dkeys (s.particles ++ _)
    rw [dkeys_append]
    refine List.mem_append.mpr (Or.inr ?_)
    show particle_idn2name sysName k ∈
      [particle_idn2name sysName ((some k).getD (s.maxParticleIdn + 1))]
    rw [hkv]
    exact List.mem_singleton_self _
  · have hmem : particle_idn2name sysName
        ((none : Option ℤ).getD (s₂.maxParticleIdn + 1)) ∈ dkeys s₂.particles := by
      have hv : (none : Option ℤ).getD (s₂.maxParticleIdn + 1) = k := by
        simp only [Option.getD_none]
        rw [hm₂, hmax1, hc]
        omega
      rw [hv, hk₂, addedState_particles]
      refine List.mem_append.mpr (Or.inl ?_)
      show particle_idn2name sysName k ∈ dkeys (s.particles ++ _)
      rw [dkeys_append]
      refine List.mem_append.mpr (Or.inr ?_)
      show particle_idn2name sysName k ∈
        [particle_idn2name sysName ((some k).getD (s.maxParticleIdn + 1))]
      rw [hkv]
      exact List.mem_singleton_self _
    exact add_particle_err sysName draw s₂ pp none none none none hmem

theorem C9_increment_witness :
    (∀ (s₀ : SysState) (pp₀ : PrimPath) (idn₀ : Option ℤ) (sc₀ pos₀ : Option V3)
        (ori₀ : Option V4) (p : Particle) (s₀' : SysState),
      add_particle exSysName exDraw s₀ pp₀ idn₀ sc₀ pos₀ ori₀ = .ok (p, s₀') →
      s₀'.maxParticleIdn = s₀.maxParticleIdn + 1) ∧
    ∃ p s₁ s₂, add_particle exSysName exDraw (initSystem exTemplate) [("W".data)]
        (some 2) none none none = .ok (p, s₁) ∧
      s₁.maxParticleIdn = (initSystem exTemplate).maxParticleIdn + 1 ∧
      s₁.maxParticleIdn < 2 ∧
      particle_idn2name exSysName 2 ∈ dkeys s₁.particles ∧
      addSeq exSysName exDraw s₁
        (List.replicate (2 - (initSystem exTemplate).maxParticleIdn - 2).toNat
          ([("W".data)], none, none, none)) = .ok s₂ ∧
      add_particle exSysName exDraw s₂ [("W".data)] none none none none =
        .error .duplicateParticle :=
  C9_increment_and_eventual_duplicate exSysName exDraw (initSystem exTemplate) exTemplate 2
    [("W".data)] none none none rfl (by decide)
    (by
      intro j hj hmem
      simp [initSystem, dkeys] at hmem)

/-! ### Group removal -/

theorem dget_key_mem {l : List (κ × α)} {k : κ} {v : α} (h : dget l k = some v) :
    k ∈ dkeys l := by
  have := dget_mem h
  exact List.mem_map_of_mem Prod.fst this

theorem dget_dmodify_self (l : List (κ × α)) (k : κ) (f : α → α) :
    dget (dmodify l k f) k = (dget l k).map f := by
  induction l with
  | nil => rfl
  | cons hd t ih =>
    obtain ⟨k0, v0⟩ := hd
    by_cases he : k0 = k
    · simp [dmodify, dget, he]
    · simp [dmodify, dget, he, ih]

theorem dmodify_mem_ne {l : List (κ × α)} {k : κ} {f : α → α} {pr : κ × α}
    (h : pr ∈ dmodify l k f) (hne : pr.1 ≠ k) : pr ∈ l := by
  induction l with
  | nil => simpa [dmodify] using h
  | cons hd t ih =>
    obtain ⟨k0, v0⟩ := hd
    by_cases he : k0 = k
    · simp only [dmodify, if_pos he] at h
      rcases List.mem_cons.mp h with h | h
      · exfalso
        apply hne
        rw [h]
        exact he
      · exact List.mem_cons_of_mem _ h
    · simp only [dmodify, if_neg he] at h
      rcases List.mem_cons.mp h with h | h
      · exact h ▸ List.mem_cons_self _ _
      · exact List.mem_cons_of_mem _ (ih h)

theorem mem_dkeys_dpop_ne {l : List (κ × α)} {k k' : κ}
    (h : k' ∈ dkeys l) (hne : k' ≠ k) : k' ∈ dkeys (dpop l k) := by
  induction l with
  | nil => simpa [dkeys] using h
  | cons hd t ih =>
    obtain ⟨k0, v0⟩ := hd
    by_cases he : k0 = k
    · simp only [dpop, if_pos he]
      simp only [dkeys, List.map_cons, List.mem_cons] at h
      rcases h with h | h
      · exact absurd (h.trans he) hne
      · exact h
    · simp only [dpop, if_neg he, dkeys, List.map_cons, List.mem_cons]
      simp only [dkeys, List.map_cons, List.mem_cons] at h
      rcases h with h | h
      · exact Or.inl h
      · exact Or.inr (ih h)

theorem popFromFirstGroup_eq_dmodify (gs : List (PName × List (PName × Particle)))
    (g nm : PName) (gd : List (PName × Particle))
    (hget : dget gs g = some gd) (hmem : nm ∈ dkeys gd)
    (hdisj : ∀ pr ∈ gs, pr.1 ≠ g → nm ∉ dkeys pr.2) :
    popFromFirstGroup gs nm = dmodify gs g (fun gd0 => dpop gd0 nm) := by
  induction gs with
  | nil => rfl
  | cons hd t ih =>
    obtain ⟨g0, gd0⟩ := hd
    by_cases he : g0 = g
    · subst he
      simp only [dget, if_true, reduceIte, Option.some.injEq] at hget
      subst hget
      simp only [popFromFirstGroup, if_pos hmem, dmodify, if_true, reduceIte]
    · have hnm0 : nm ∉ dkeys gd0 := hdisj (g0, gd0) (List.mem_cons_self _ _) he
      simp only [popFromFirstGroup, if_neg hnm0, dmodify, if_neg he]
      simp only [dget, if_neg he] at hget
      rw [ih hget (fun pr hpr => hdisj pr (List.mem_cons_of_mem _ hpr))]

theorem remove_fold_master (g : PName) :
    ∀ (gd : List (PName × Particle)) (s : SysState),
    (dkeys gd).Nodup →
    (∀ nm ∈ dkeys gd, nm ∈ dkeys s.particles) →
    dget s.groupParticles g = some gd →
    (∀ pr ∈ s.groupParticles, pr.1 ≠ g → ∀ nm ∈ dkeys gd, nm ∉ dkeys pr.2) →
    ∃ s', (dkeys gd).foldlM (fun st nm => remove_particle st nm) s = .ok s' ∧
      s'.particles.length + gd.length = s.particles.length ∧
      dkeys s'.groupParticles = dkeys s.groupParticles ∧
      dget s'.groupParticles g = some [] ∧
      s'.groupObjects = s.groupObjects ∧
      s'.minScale = s.minScale ∧ s'.maxScale = s.maxScale ∧
      s'.maxParticleIdn = s.maxParticleIdn ∧
      s'.particleObject = s.particleObject := by
  intro gd
  induction gd with
  | nil =>
    intro s _ _ hget _
    exact ⟨s, rfl, rfl, rfl, hget, rfl, rfl, rfl, rfl, rfl⟩
  | cons hd tl ih =>
    intro s hnd hmemP hget hdisj
    obtain ⟨nm, p⟩ := hd
    have hmemhd : nm ∈ dkeys ((nm, p) :: tl) := List.mem_cons_self _ _
    have hmem : nm ∈ dkeys s.particles := hmemP nm hmemhd
    have hpopGs : popFromFirstGroup s.groupParticles nm =
        dmodify s.groupParticles g (fun gd0 => dpop gd0 nm) :=
      popFromFirstGroup_eq_dmodify s.groupParticles g nm ((nm, p) :: tl) hget hmemhd
        (fun pr hpr hne => hdisj pr hpr hne nm hmemhd)
    have hstep : remove_particle s nm = .ok
        { s with particles := dpop s.particles nm,
                 groupParticles := popFromFirstGroup s.groupParticles nm } := by
      unfold remove_particle
      rw [if_pos hmem]
    have hndtl : (dkeys tl).Nodup := (List.nodup_cons.mp hnd).2
    have hnmtl : nm ∉ dkeys tl := (List.nodup_cons.mp hnd).1
    obtain ⟨s', hfold, hcount, hks, hget', hgo, hmn, hmx, hmi, hpo⟩ := ih
      { s with particles := dpop s.particles nm,
               groupParticles := popFromFirstGroup s.groupParticles nm }
      hndtl
      (by
        intro nm' hnm'
        show nm' ∈ dkeys (dpop s.particles nm)
        exact mem_dkeys_dpop_ne (hmemP nm' (List.mem_cons_of_mem _ hnm'))
          (fun he => hnmtl (he ▸ hnm')))
      (by
        show dget (popFromFirstGroup s.groupParticles nm) g = some tl
        rw [hpopGs, dget_dmodify_self, hget]
        simp only [Option.map_some']
        congr 1
        simp only [dpop, if_true, reduceIte])
      (by
        intro pr hpr hne nm' hnm'
        show nm' ∉ dkeys pr.2
        rw [hpopGs] at hpr
        exact hdisj pr (dmodify_mem_ne hpr hne) hne nm' (List.mem_cons_of_mem _ hnm'))
    refine ⟨s', ?_, ?_, ?_, hget', hgo, hmn, hmx, hmi, hpo⟩
    · show (dkeys ((nm, p) :: tl)).foldlM (fun st nm => remove_particle st nm) s = .ok s'
      have hk : dkeys ((nm, p) :: tl) = nm :: dkeys tl := rfl
      rw [hk, List.foldlM_cons, hstep, except_bind_ok]
      exact hfold
    · have hcount' : s'.particles.length + tl.length = (dpop s.particles nm).length := hcount
      have := length_dpop_mem s.particles nm hmem
      simp only [List.length_cons]
      omega
    · rw [hks, hpopGs, dkeys_dmodify]

/-- C6: removing an attachment group holding `K` particles removes
exactly `K` tracked particles, leaves no particle or host-object record
under the group name, and a subsequent `num_group_particles` on that
name fails with the unknown-group error. -/
theorem C6_remove_attachment_group (s : SysState) (g : PName)
    (gd : List (PName × Particle))
    (hget : dget s.groupParticles g = some gd)
    (hnd : (dkeys gd).Nodup)
    (hmemP : ∀ nm ∈ dkeys gd, nm ∈ dkeys s.particles)
    (hGnd : (dkeys s.groupParticles).Nodup)
    (hGOnd : (dkeys s.groupObjects).Nodup)
    (hdisj : ∀ pr ∈ s.groupParticles, pr.1 ≠ g → ∀ nm ∈ dkeys gd, nm ∉ dkeys pr.2) :
    ∃ s', remove_attachment_group s g = .ok s' ∧
      s'.particles.length + gd.length = s.particles.length ∧
      g ∉ dkeys s'.groupParticles ∧
      g ∉ dkeys s'.groupObjects ∧
      num_group_particles s' g = .error .unknownGroup := by
  have hmemG : g ∈ dkeys s.groupParticles := dget_key_mem hget
  obtain ⟨s'', hfold, hcount, hks, hget', hgo, _, _, _, _⟩ :=
    remove_fold_master g gd s hnd hmemP hget hdisj
  have hremove : remove_all_group_particles s g = .ok s'' := by
    unfold remove_all_group_particles
    rw [if_pos hmemG, hget]
    exact hfold
  have hnotmem : g ∉ dkeys (dpop s''.groupParticles g) := by
    apply not_mem_dkeys_dpop_nodup
    rw [hks]
    exact hGnd
  refine ⟨{ s'' with groupParticles := dpop s''.groupParticles g, groupObjects := dpop s''.groupObjects g }, ?_, hcount, hnotmem, ?_, ?_⟩
  · unfold remove_attachment_group
    rw [if_pos hmemG, hremove, except_bind_ok]
    rfl
  · show g ∉ dkeys (dpop s''.groupObjects g)
    apply not_mem_dkeys_dpop_nodup
    rw [hgo]
    exact hGOnd
  · unfold num_group_particles
    rw [if_neg hnotmem]

unseal Rat.mul Rat.inv Rat.add Rat.sub in
theorem C6_remove_attachment_group_witness :
    ∃ s', remove_attachment_group exStateGP exHost.name = .ok s' ∧
      s'.particles.length + [(exPName, exParticle)].length = exStateGP.particles.length ∧
      exHost.name ∉ dkeys s'.groupParticles ∧
      exHost.name ∉ dkeys s'.groupObjects ∧
      num_group_particles s' exHost.name = .error .unknownGroup :=
  C6_remove_attachment_group exStateGP exHost.name [(exPName, exParticle)]
    (by decide) (by decide) (by decide) (by decide) (by decide) (by decide)

/-- C7: when the surface sampler produces no valid placement (every
candidate position is absent), `generate_group_particles_on_object` with
`min_particles_for_success = 1` returns `false` without raising, and the
group afterwards holds zero particles — even if it held particles before
the call (they are cleared up front). -/
theorem C7_zero_placements (sysName : PName) (draw : V3 → V3 → V3) (cbrtFn : ℚ → ℚ)
    (upd : SysState → PName → V3 × V3)
    (sampler : HostObj → ℕ → List V3 → List SampleResult)
    (clip : Bool) (nPerGroup : ℕ) (s : SysState) (g : PName)
    (gd : List (PName × Particle)) (obj : HostObj) (tmpl : TemplateObj)
    (nOpt : Option ℕ) (draws : List V3)
    (hget : dget s.groupParticles g = some gd)
    (hnd : (dkeys gd).Nodup)
    (hmemP : ∀ nm ∈ dkeys gd, nm ∈ dkeys s.particles)
    (hdisj : ∀ pr ∈ s.groupParticles, pr.1 ≠ g → ∀ nm ∈ dkeys gd, nm ∉ dkeys pr.2)
    (hobj : dget s.groupObjects g = some obj)
    (htmpl : s.particleObject = some tmpl)
    (hsampler : ∀ o k dims, ∀ r ∈ sampler o k dims, r.position = none) :
    ∃ s', generate_group_particles_on_object sysName draw cbrtFn upd sampler clip
        nPerGroup s g nOpt 1 draws = .ok (false, s') ∧
      num_group_particles s' g = .ok 0 := by
  have hmemG : g ∈ dkeys s.groupParticles := dget_key_mem hget
  obtain ⟨s₁, hfold, _, hks, hget₁, hgo₁, _, _, _, hpo₁⟩ :=
    remove_fold_master g gd s hnd hmemP hget hdisj
  have hremove : remove_all_group_particles s g = .ok s₁ := by
    unfold remove_all_group_particles
    rw [if_pos hmemG, hget]
    exact hfold
  have hmemG₁ : g ∈ dkeys s₁.groupParticles := by rw [hks]; exact hmemG
  have hobj₁ : dget s₁.groupObjects g = some obj := by rw [hgo₁]; exact hobj
  have hsample : sample_scales cbrtFn upd s₁ g (nOpt.getD nPerGroup) draws = .ok
      ((draws.take (nOpt.getD nPerGroup)).map (fun d => d / cbrtFn (V3.prod obj.scale)),
       set_scale_limits s₁ (some (upd s₁ g).1) (some (upd s₁ g).2)) := by
    unfold sample_scales
    rw [if_pos hmemG₁]
    have hobj₂ : dget (set_scale_limits s₁ (some (upd s₁ g).1)
        (some (upd s₁ g).2)).groupObjects g = some obj := hobj₁
    simp only [hobj₂]
  have hpo₂ : (set_scale_limits s₁ (some (upd s₁ g).1)
      (some (upd s₁ g).2)).particleObject = some tmpl := by
    show s₁.particleObject = some tmpl
    rw [hpo₁]
    exact htmpl
  have hvalid : ∀ (scales dims : List V3),
      ((sampler obj (nOpt.getD nPerGroup) dims).zip scales).filterMap
        (fun pr => pr.1.position.map
          (fun p => (p, pr.1.quaternion, pr.2, pr.1.hitLink))) = [] := by
    intro scales dims
    apply List.filterMap_eq_nil.mpr
    intro pr hpr
    rw [hsampler obj (nOpt.getD nPerGroup) dims pr.1 (List.of_mem_zip hpr).1]
    rfl
  refine ⟨set_scale_limits s₁ (some (upd s₁ g).1) (some (upd s₁ g).2), ?_, ?_⟩
  · unfold generate_group_particles_on_object
    rw [if_pos hmemG]
    simp only [hremove, except_bind_ok, hobj₁, hsample, hpo₂, hvalid, List.length_nil]
    rfl
  · unfold num_group_particles
    rw [if_pos (show g ∈ dkeys (set_scale_limits s₁ (some (upd s₁ g).1)
      (some (upd s₁ g).2)).groupParticles from hmemG₁)]
    rw [show dget (set_scale_limits s₁ (some (upd s₁ g).1)
      (some (upd s₁ g).2)).groupParticles g = some [] from hget₁]
    rfl

theorem C7_zero_placements_witness :
    ∃ s', generate_group_particles_on_object exSysName exDraw id
        update_particle_scaling_default exFailSampler false 20 exStateGP exHost.name
        none 1 [] = .ok (false, s') ∧
      num_group_particles s' exHost.name = .ok 0 :=
  C7_zero_placements exSysName exDraw id update_particle_scaling_default exFailSampler
    false 20 exStateGP exHost.name [(exPName, exParticle)] exHost exTemplate none []
    (by decide) (by decide) (by decide) (by decide) (by decide) (by decide)
    (by
      intro o k dims r hr
      rw [List.eq_of_mem_replicate hr])

/-- C8: every scale triple returned by `sample_scales` lies componentwise
within `[min_scale, max_scale]` (the bounds set by the per-group
`update_particle_scaling` hook) divided by the host's average scale
factor, the cube root of the product of its three axis scale factors. -/
theorem C8_sample_scales_bounds (cbrtFn : ℚ → ℚ) (upd : SysState → PName → V3 × V3)
    (s : SysState) (g : PName) (obj : HostObj) (n : ℕ) (draws : List V3)
    (hmemG : g ∈ dkeys s.groupParticles)
    (hobj : dget s.groupObjects g = some obj)
    (hpos : 0 < cbrtFn (V3.prod obj.scale))
    (hdraws : ∀ d ∈ draws, (upd s g).1 ≤ d ∧ d ≤ (upd s g).2) :
    ∃ out s', sample_scales cbrtFn upd s g n draws = .ok (out, s') ∧
      ∀ v ∈ out, (upd s g).1 / cbrtFn (V3.prod obj.scale) ≤ v ∧
        v ≤ (upd s g).2 / cbrtFn (V3.prod obj.scale) := by
  have hsample : sample_scales cbrtFn upd s g n draws = .ok
      ((draws.take n).map (fun d => d / cbrtFn (V3.prod obj.scale)),
       set_scale_limits s (some (upd s g).1) (some (upd s g).2)) := by
    unfold sample_scales
    rw [if_pos hmemG]
    have hobj₂ : dget (set_scale_limits s (some (upd s g).1)
        (some (upd s g).2)).groupObjects g = some obj := hobj
    simp only [hobj₂]
  refine ⟨_, _, hsample, ?_⟩
  intro v hv
  obtain ⟨d, hd, hde⟩ := List.mem_map.mp hv
  have hdm : d ∈ draws := List.take_subset n draws hd
  obtain ⟨hlo, hhi⟩ := hdraws d hdm
  obtain ⟨hlo1, hlo2, hlo3⟩ := hlo
  obtain ⟨hhi1, hhi2, hhi3⟩ := hhi
  subst hde
  constructor
  · exact ⟨(div_le_div_right hpos).mpr hlo1, (div_le_div_right hpos).mpr hlo2,
      (div_le_div_right hpos).mpr hlo3⟩
  · exact ⟨(div_le_div_right hpos).mpr hhi1, (div_le_div_right hpos).mpr hhi2,
      (div_le_div_right hpos).mpr hhi3⟩

unseal Rat.mul Rat.inv Rat.add Rat.sub in
theorem C8_sample_scales_bounds_witness :
    ∃ out s', sample_scales id update_particle_scaling_default exStateG exHost.name 2
        [⟨1, 1, 1⟩, ⟨1, 1, 1⟩, ⟨1, 1, 1⟩] = .ok (out, s') ∧
      ∀ v ∈ out,
        (update_particle_scaling_default exStateG exHost.name).1 /
          id (V3.prod exHost.scale) ≤ v ∧
        v ≤ (update_particle_scaling_default exStateG exHost.name).2 /
          id (V3.prod exHost.scale) :=
  C8_sample_scales_bounds id update_particle_scaling_default exStateG exHost.name exHost 2
    [⟨1, 1, 1⟩, ⟨1, 1, 1⟩, ⟨1, 1, 1⟩]
    (by decide) (by decide) (by decide) (by decide)

/-! ### Group-layer round trip: utility lemmas -/

theorem getD_drop (v : List ℚ) (i j : ℕ) : (v.drop i).getD j 0 = v.getD (i + j) 0 := by
  simp [List.getD_eq_getD_get?, List.get?_drop]

theorem slice_drop (v : List ℚ) (i a b : ℕ) :
    slice v (i + a) (i + b) = slice (v.drop i) a b := by
  unfold slice
  rw [List.drop_drop]
  congr 1
  omega

theorem drop_one_append (x : ℚ) (H B : List ℚ) :
    ((x :: H) ++ B).drop (1 + H.length) = B := by
  rw [List.cons_append]
  have h1 : 1 + H.length = H.length + 1 := by omega
  rw [h1, List.drop_succ_cons, List.drop_left]

theorem link2id_getD (links : List PName) (ln : PName) (h : ln ∈ links) :
    links.getD (link2id links ln) [] = ln := by
  have hmem : ln ∈ links.reverse := List.mem_reverse.mpr h
  have hfi : links.reverse.findIdx (fun l => l = ln) < links.reverse.length :=
    List.findIdx_lt_length_of_exists ⟨ln, hmem, by simp⟩
  have hval := @List.findIdx_getElem _ (fun l => l = ln) links.reverse hfi
  rw [List.getElem_reverse] at hval
  have hlen := List.length_reverse links
  have hpos : 0 < links.length := List.length_pos.mpr (List.ne_nil_of_mem h)
  have hidx : links.length - 1 - links.reverse.findIdx (fun l => l = ln) < links.length := by
    omega
  unfold link2id
  rw [List.getD_eq_getElem _ _ hidx]
  exact of_decide_eq_true hval

theorem dkeys_gpOf (gs : GroupData) :
    dkeys (gpOf gs) = gs.map (fun pr => pr.1.name) := by
  unfold dkeys gpOf
  rw [List.map_map]
  rfl

theorem dkeys_goOf (gs : GroupData) :
    dkeys (goOf gs) = gs.map (fun pr => pr.1.name) := by
  unfold dkeys goOf
  rw [List.map_map]
  rfl

theorem dget_goOf (gs : GroupData) (hg : (gs.map (fun pr => pr.1.name)).Nodup)
    (pr : HostObj × List (PName × Particle)) (hmem : pr ∈ gs) :
    dget (goOf gs) pr.1.name = some pr.1 := by
  apply dget_of_mem_nodup
  · rw [dkeys_goOf]
    exact hg
  · exact List.mem_map.mpr ⟨pr, hmem, rfl⟩

theorem dget_gpOf (gs : GroupData) (hg : (gs.map (fun pr => pr.1.name)).Nodup)
    (pr : HostObj × List (PName × Particle)) (hmem : pr ∈ gs) :
    dget (gpOf gs) pr.1.name = some pr.2 := by
  apply dget_of_mem_nodup
  · rw [dkeys_gpOf]
    exact hg
  · exact List.mem_map.mpr ⟨pr, hmem, rfl⟩

theorem idnsOf_length (sysName : PName) (gd : List (PName × Particle)) :
    (idnsOf sysName gd).length = gd.length := by
  simp [idnsOf]

theorem lnsOf_length (gd : List (PName × Particle)) :
    (lnsOf gd).length = gd.length := by
  simp [lnsOf]

theorem groupBlock_length (sysName : PName) (pr : HostObj × List (PName × Particle)) :
    (groupBlock sysName pr).length = 2 + 2 * pr.2.length := by
  simp [groupBlock, idnsOf, lnsOf]
  omega

theorem flatGroupBlocks_cons (sysName : PName) (pr : HostObj × List (PName × Particle))
    (t : GroupData) :
    flatGroupBlocks sysName (pr :: t) = groupBlock sysName pr ++ flatGroupBlocks sysName t := by
  simp [flatGroupBlocks]

theorem flatGroupBlocks_length (sysName : PName) (gs : GroupData) :
    (flatGroupBlocks sysName gs).length = (gs.map (fun pr => 2 + 2 * pr.2.length)).sum := by
  induction gs with
  | nil => rfl
  | cons pr t ih =>
    rw [flatGroupBlocks_cons, List.length_append, groupBlock_length, ih]
    simp

theorem dump_visual_eq (sysName : PName) (s : SysState) (gs : GroupData)
    (hgp : s.groupParticles = gpOf gs) (hgo : s.groupObjects = goOf gs)
    (hg : (gs.map (fun pr => pr.1.name)).Nodup) :
    dump_visual sysName s =
      { toMPSState := dump_base s, n_groups := gs.length,
        groups := dumpGroups sysName gs } := by
  unfold dump_visual
  rw [hgp, hgo]
  have hng : (gpOf gs).length = gs.length := by simp [gpOf]
  have hgroups : (gpOf gs).map (fun pr =>
      ((pr.1 : PName),
        ({ particle_attached_obj_uuid := ((dget (goOf gs) pr.1).map HostObj.uuid).getD 0
           n_particles := pr.2.length
           particle_idns := pr.2.map (fun q => particle_name2idn sysName q.1)
           particle_attached_link_names :=
             pr.2.map (fun q => secondLast q.2.primPath []) } : GroupInfo))) =
      dumpGroups sysName gs := by
    unfold gpOf dumpGroups
    rw [List.map_map]
    apply List.map_congr_left
    intro pr hpr
    have hd := dget_goOf gs hg pr hpr
    simp only [Function.comp, hd, Option.map_some', Option.getD_some, giOf, idnsOf, lnsOf]
  rw [hng, hgroups]

theorem flatGroups_blocks (sysName : PName) (s : SysState) (gs : GroupData)
    (hdget : ∀ pr ∈ gs, dget s.groupObjects pr.1.name = some pr.1) :
    flatGroups s (dumpGroups sysName gs) = flatGroupBlocks sysName gs := by
  induction gs with
  | nil => rfl
  | cons pr t ih =>
    have hself := hdget pr (List.mem_cons_self pr t)
    show flatGroups s ((pr.1.name, giOf sysName pr) :: dumpGroups sysName t) = _
    simp only [flatGroups, hself, Option.map_some', Option.getD_some, flatGroupBlocks_cons]
    rw [ih (fun q hq => hdget q (List.mem_cons_of_mem pr hq))]
    rfl
theorem slice_first (I X : List ℚ) (n : ℕ) (hI : I.length = n) :
    slice (I ++ X) 0 n = I := by
  rw [slice_take]
  exact List.take_left' hI

theorem slice_middle (I L R : List ℚ) (hw : I.length = L.length) :
    slice (I ++ (L ++ R)) I.length (I.length + L.length) = L := by
  unfold slice
  rw [List.drop_left]
  have hk : I.length + L.length - I.length = L.length := by omega
  rw [hk, List.take_left]

theorem drop_middle (I L R : List ℚ) :
    (I ++ (L ++ R)).drop (I.length + L.length) = R := by
  rw [List.drop_append, List.drop_left]

theorem map_ratToInt_int (l : List ℤ) :
    (l.map (fun (i : ℤ) => (i : ℚ))).map ratToInt = l := by
  rw [List.map_map]
  have h : (ratToInt ∘ fun (i : ℤ) => (i : ℚ)) = id := funext fun i => ratToInt_intCast i
  rw [h, List.map_id]

theorem parseGroupsLoop_blocks (sysName : PName) (scene : Scene) (v : List ℚ) :
    ∀ (gsuf : GroupData) (tail : List ℚ) (idx : ℕ)
      (acc : List (PName × GroupInfo)) (objs : List HostObj),
      v.drop idx = flatGroupBlocks sysName gsuf ++ tail →
      (∀ pr ∈ gsuf, objectRegistryByUuid scene pr.1.uuid = some pr.1) →
      (∀ pr ∈ gsuf, ∀ q ∈ pr.2, secondLast q.2.primPath [] ∈ pr.1.links) →
      parseGroupsLoop scene v gsuf.length idx acc objs =
        .ok (acc ++ dumpGroups sysName gsuf, objs ++ gsuf.map (fun pr => pr.1),
             idx + (gsuf.map (fun pr => 2 + 2 * pr.2.length)).sum) := by
  intro gsuf
  induction gsuf with
  | nil =>
    intro tail idx acc objs _ _ _
    simp [parseGroupsLoop, dumpGroups]
  | cons pr t ih =>
    intro tail idx acc objs hdrop huuid hlinks
    have hI : ((idnsOf sysName pr.2).map (fun (i : ℤ) => (i : ℚ))).length = pr.2.length := by
      simp [idnsOf]
    have hL : ((lnsOf pr.2).map
        (fun ln => ((link2id pr.1.links ln : ℕ) : ℚ))).length = pr.2.length := by
      simp [lnsOf]
    have hdrop2 : v.drop idx = (pr.1.uuid : ℚ) :: ((pr.2.length : ℕ) : ℚ) ::
        (((idnsOf sysName pr.2).map (fun (i : ℤ) => (i : ℚ))) ++
         (((lnsOf pr.2).map (fun ln => ((link2id pr.1.links ln : ℕ) : ℚ))) ++
          (flatGroupBlocks sysName t ++ tail))) := by
      rw [hdrop, flatGroupBlocks_cons, List.append_assoc]
      simp [groupBlock]
    have hg0 : v.getD idx 0 = (pr.1.uuid : ℚ) := by
      have h := getD_drop v idx 0
      rw [Nat.add_zero] at h
      rw [← h, hdrop2]
      rfl
    have hreg : objectRegistryByUuid scene (ratToInt (v.getD idx 0)) = some pr.1 := by
      rw [hg0, ratToInt_intCast]
      exact huuid pr (List.mem_cons_self pr t)
    have hg1 : v.getD (idx + 1) 0 = ((pr.2.length : ℕ) : ℚ) := by
      rw [← getD_drop, hdrop2]
      rfl
    have hn : (ratToInt (v.getD (idx + 1) 0)).toNat = pr.2.length := by
      rw [hg1, ratToInt_natCast]
      exact Int.toNat_natCast pr.2.length
    have hsl1 : slice v (idx + 2) (idx + 2 + pr.2.length) =
        (idnsOf sysName pr.2).map (fun (i : ℤ) => (i : ℚ)) := by
      have e2 : idx + 2 + pr.2.length = idx + (2 + pr.2.length) := by omega
      rw [e2, slice_drop, hdrop2]
      have hm := slice_cons2 (pr.1.uuid : ℚ) ((pr.2.length : ℕ) : ℚ)
        (((idnsOf sysName pr.2).map (fun (i : ℤ) => (i : ℚ))) ++
         (((lnsOf pr.2).map (fun ln => ((link2id pr.1.links ln : ℕ) : ℚ))) ++
          (flatGroupBlocks sysName t ++ tail))) 0 pr.2.length
      rw [Nat.zero_add, Nat.add_comm pr.2.length 2] at hm
      rw [hm]
      exact slice_first _ _ _ hI
    have hidns : (slice v (idx + 2) (idx + 2 + pr.2.length)).map ratToInt =
        idnsOf sysName pr.2 := by
      rw [hsl1]
      exact map_ratToInt_int _
    have hsl2 : slice v (idx + 2 + pr.2.length) (idx + 2 + pr.2.length * 2) =
        (lnsOf pr.2).map (fun ln => ((link2id pr.1.links ln : ℕ) : ℚ)) := by
      have e2 : idx + 2 + pr.2.length = idx + (2 + pr.2.length) := by omega
      have e3 : idx + 2 + pr.2.length * 2 =
          idx + (2 + (pr.2.length + pr.2.length)) := by omega
      rw [e2, e3, slice_drop, hdrop2]
      have hm := slice_cons2 (pr.1.uuid : ℚ) ((pr.2.length : ℕ) : ℚ)
        (((idnsOf sysName pr.2).map (fun (i : ℤ) => (i : ℚ))) ++
         (((lnsOf pr.2).map (fun ln => ((link2id pr.1.links ln : ℕ) : ℚ))) ++
          (flatGroupBlocks sysName t ++ tail)))
        pr.2.length (pr.2.length + pr.2.length)
      rw [Nat.add_comm pr.2.length 2, Nat.add_comm (pr.2.length + pr.2.length) 2] at hm
      rw [hm]
      have hmid := slice_middle ((idnsOf sysName pr.2).map (fun (i : ℤ) => (i : ℚ)))
        ((lnsOf pr.2).map (fun ln => ((link2id pr.1.links ln : ℕ) : ℚ)))
        (flatGroupBlocks sysName t ++ tail) (by rw [hI, hL])
      rw [hI, hL] at hmid
      exact hmid
    have hlnames : (slice v (idx + 2 + pr.2.length) (idx + 2 + pr.2.length * 2)).map
        (fun q => pr.1.links.getD (ratToInt q).toNat []) = lnsOf pr.2 := by
      rw [hsl2, List.map_map]
      have hstep : ∀ ln ∈ lnsOf pr.2,
          ((fun q => pr.1.links.getD (ratToInt q).toNat []) ∘
           (fun ln => ((link2id pr.1.links ln : ℕ) : ℚ))) ln = id ln := by
        intro ln hln
        obtain ⟨q, hq, hqe⟩ := List.mem_map.mp hln
        simp only [Function.comp, id]
        rw [ratToInt_natCast, Int.toNat_natCast]
        apply link2id_getD
        rw [← hqe]
        exact hlinks pr (List.mem_cons_self pr t) q hq
      rw [List.map_congr_left hstep, List.map_id]
    have hdroprec : v.drop (idx + 2 + pr.2.length * 2) =
        flatGroupBlocks sysName t ++ tail := by
      have e : idx + 2 + pr.2.length * 2 =
          idx + (2 + (pr.2.length + pr.2.length)) := by omega
      rw [e, ← List.drop_drop, hdrop2]
      have e2 : 2 + (pr.2.length + pr.2.length) =
          ((pr.2.length + pr.2.length) + 1) + 1 := by omega
      rw [e2, List.drop_succ_cons, List.drop_succ_cons]
      have hmid := drop_middle ((idnsOf sysName pr.2).map (fun (i : ℤ) => (i : ℚ)))
        ((lnsOf pr.2).map (fun ln => ((link2id pr.1.links ln : ℕ) : ℚ)))
        (flatGroupBlocks sysName t ++ tail)
      rw [hI, hL] at hmid
      exact hmid
    rw [List.length_cons]
    show parseGroupsLoop scene v (t.length + 1) idx acc objs = _
    simp only [parseGroupsLoop]
    rw [hreg]
    simp only [hg0, ratToInt_intCast, hn, hidns, hlnames]
    have hrec := ih tail (idx + 2 + pr.2.length * 2)
      (acc ++ [(pr.1.name,
        (⟨pr.1.uuid, pr.2.length, idnsOf sysName pr.2, lnsOf pr.2⟩ : GroupInfo))])
      (objs ++ [pr.1]) hdroprec
      (fun q hq => huuid q (List.mem_cons_of_mem pr hq))
      (fun q hq => hlinks q (List.mem_cons_of_mem pr hq))
    rw [hrec]
    rw [Except.ok.injEq, Prod.mk.injEq, Prod.mk.injEq]
    refine ⟨?_, ?_, ?_⟩
    · rw [List.append_assoc]
      rfl
    · rw [List.append_assoc]
      rfl
    · rw [List.map_cons, List.sum_cons]
      omega
theorem dmodify_value_self (l : List (κ × α)) (k : κ) (v : α) (h : dget l k = some v) :
    dmodify l k (fun _ => v) = l := by
  induction l with
  | nil => rfl
  | cons hd t ih =>
    obtain ⟨k0, v0⟩ := hd
    by_cases he : k0 = k
    · subst he
      have hv : v0 = v := by simpa [dget] using h
      simp [dmodify, hv]
    · have h' : dget t k = some v := by simpa [dget, he] using h
      simp [dmodify, he, ih h']

theorem dmodify_dmodify (l : List (κ × α)) (k : κ) (f h : α → α) :
    dmodify (dmodify l k f) k h = dmodify l k (fun v => h (f v)) := by
  induction l with
  | nil => rfl
  | cons hd t ih =>
    obtain ⟨k0, v0⟩ := hd
    by_cases he : k0 = k
    · simp [dmodify, he]
    · simp [dmodify, he, ih]

theorem dkeys_rebuiltGd (sysName : PName) (draw : V3 → V3 → V3) (mn mx : V3)
    (tmpl : TemplateObj) (obj : HostObj) (pairs : List (ℤ × PName)) :
    dkeys (rebuiltGd sysName draw mn mx tmpl obj pairs) =
      pairs.map (fun ip => particle_idn2name sysName ip.1) := by
  unfold dkeys rebuiltGd
  rw [List.map_map]
  rfl

theorem pairs_names (sysName : PName) (gd : List (PName × Particle))
    (hcanon : ∀ q ∈ gd, ∃ i : ℤ, q.1 = particle_idn2name sysName i) :
    ((idnsOf sysName gd).zip (lnsOf gd)).map (fun ip => particle_idn2name sysName ip.1) =
      dkeys gd := by
  unfold idnsOf lnsOf
  rw [List.zip_map', List.map_map]
  apply List.map_congr_left
  intro q hq
  obtain ⟨i, hi⟩ := hcanon q hq
  simp only [Function.comp]
  rw [hi, name2idn_idn2name]

theorem syncAdd_fold (sysName : PName) (draw : V3 → V3 → V3) (tmpl : TemplateObj)
    (obj : HostObj) (g : PName) :
    ∀ (pairs : List (ℤ × PName)) (st : SysState) (gd0 : List (PName × Particle)),
      st.particleObject = some tmpl →
      dget st.groupParticles g = some gd0 →
      (∀ ip ∈ pairs, particle_idn2name sysName ip.1 ∉ dkeys st.particles) →
      (∀ ip ∈ pairs, particle_idn2name sysName ip.1 ∉ dkeys gd0) →
      (pairs.map (fun ip => particle_idn2name sysName ip.1)).Nodup →
      ∃ st', pairs.foldlM (syncAddParticle sysName draw obj g) st = .ok st' ∧
        st'.particles = st.particles ++
          rebuiltGd sysName draw st.minScale st.maxScale tmpl obj pairs ∧
        st'.groupParticles = dmodify st.groupParticles g
          (fun _ => gd0 ++ rebuiltGd sysName draw st.minScale st.maxScale tmpl obj pairs) ∧
        st'.groupObjects = st.groupObjects ∧
        st'.minScale = st.minScale ∧
        st'.maxScale = st.maxScale ∧
        st'.particleObject = some tmpl ∧
        st'.maxParticleIdn = st.maxParticleIdn + pairs.length := by
  intro pairs
  induction pairs with
  | nil =>
    intro st gd0 hpo hgd _ _ _
    refine ⟨st, rfl, by simp [rebuiltGd], ?_, rfl, rfl, rfl, hpo, by simp⟩
    rw [show rebuiltGd sysName draw st.minScale st.maxScale tmpl obj [] = [] from rfl,
      List.append_nil]
    exact (dmodify_value_self _ _ _ hgd).symm
  | cons ip rest ih =>
    intro st gd0 hpo hgd hfp hfg hnd
    simp only [List.map_cons, List.nodup_cons] at hnd
    obtain ⟨hnm, hnd'⟩ := hnd
    have hne : ∀ ip' ∈ rest,
        particle_idn2name sysName ip'.1 ≠ particle_idn2name sysName ip.1 := by
      intro ip' hip' he
      apply hnm
      have hmm2 : particle_idn2name sysName ip'.1 ∈
          rest.map (fun x => particle_idn2name sysName x.1) :=
        List.mem_map.mpr ⟨ip', hip', rfl⟩
      rw [he] at hmm2
      exact hmm2
    have hfhead : particle_idn2name sysName ip.1 ∉ dkeys st.particles :=
      hfp ip (List.mem_cons_self ip rest)
    have hadd := add_particle_ok sysName draw st (obj.primPath ++ [ip.2]) (some ip.1)
      none none none tmpl hpo hfhead
    have hstep : syncAddParticle sysName draw obj g st ip =
        .ok (syncAddedState sysName draw st obj g ip tmpl) := by
      unfold syncAddParticle
      rw [hadd]
      rfl
    have hpo1 : (syncAddedState sysName draw st obj g ip tmpl).particleObject =
        some tmpl := hpo
    have hgd1 : dget (syncAddedState sysName draw st obj g ip tmpl).groupParticles g =
        some (dset gd0 (particle_idn2name sysName ip.1)
          (mkAddedParticle sysName draw st ip.1 (obj.primPath ++ [ip.2])
            none none none tmpl)) := by
      show dget (dmodify st.groupParticles g _) g = _
      rw [dget_dmodify_self, hgd]
      rfl
    have hsf : dset gd0 (particle_idn2name sysName ip.1)
        (mkAddedParticle sysName draw st ip.1 (obj.primPath ++ [ip.2])
          none none none tmpl) =
        gd0 ++ [(particle_idn2name sysName ip.1,
          mkAddedParticle sysName draw st ip.1 (obj.primPath ++ [ip.2])
            none none none tmpl)] :=
      dset_fresh _ _ _ (hfg ip (List.mem_cons_self ip rest))
    have hfp1 : ∀ ip' ∈ rest, particle_idn2name sysName ip'.1 ∉
        dkeys (syncAddedState sysName draw st obj g ip tmpl).particles := by
      intro ip' hip' hcon
      have hcon' : particle_idn2name sysName ip'.1 ∈
          dkeys (st.particles ++ [(particle_idn2name sysName ip.1,
            mkAddedParticle sysName draw st ip.1 (obj.primPath ++ [ip.2])
              none none none tmpl)]) := hcon
      rw [dkeys_append] at hcon'
      rcases List.mem_append.mp hcon' with h | h
      · exact hfp ip' (List.mem_cons_of_mem ip hip') h
      · exact hne ip' hip' (by simpa [dkeys] using h)
    have hfg1 : ∀ ip' ∈ rest, particle_idn2name sysName ip'.1 ∉
        dkeys (dset gd0 (particle_idn2name sysName ip.1)
          (mkAddedParticle sysName draw st ip.1 (obj.primPath ++ [ip.2])
            none none none tmpl)) := by
      intro ip' hip' hcon
      rw [hsf, dkeys_append] at hcon
      rcases List.mem_append.mp hcon with h | h
      · exact hfg ip' (List.mem_cons_of_mem ip hip') h
      · exact hne ip' hip' (by simpa [dkeys] using h)
    obtain ⟨st', hfold, hp, hgp, hgo, hmn, hmx, hpo', hmax⟩ :=
      ih (syncAddedState sysName draw st obj g ip tmpl) _ hpo1 hgd1 hfp1 hfg1 hnd'
    refine ⟨st', ?_, ?_, ?_, hgo, hmn, hmx, hpo', ?_⟩
    · rw [List.foldlM_cons, hstep, except_bind_ok]
      exact hfold
    · have hp' : st'.particles = (st.particles ++ [(particle_idn2name sysName ip.1,
          rebuiltParticle sysName draw st.minScale st.maxScale tmpl obj ip.1 ip.2)]) ++
          rebuiltGd sysName draw st.minScale st.maxScale tmpl obj rest := hp
      rw [hp', List.append_assoc]
      rfl
    · have hg1 : st'.groupParticles =
          dmodify (dmodify st.groupParticles g
            (fun gd => dset gd (particle_idn2name sysName ip.1)
              (mkAddedParticle sysName draw st ip.1 (obj.primPath ++ [ip.2])
                none none none tmpl))) g
            (fun _ => dset gd0 (particle_idn2name sysName ip.1)
              (mkAddedParticle sysName draw st ip.1 (obj.primPath ++ [ip.2])
                none none none tmpl) ++
              rebuiltGd sysName draw st.minScale st.maxScale tmpl obj rest) := hgp
      rw [hg1, dmodify_dmodify, hsf, List.append_assoc]
      rfl
    · have hmax' : st'.maxParticleIdn =
          (st.maxParticleIdn + 1) + (rest.length : ℤ) := hmax
      rw [hmax', List.length_cons]
      push_cast
      ring
theorem rebuiltGdOf_keys (sysName : PName) (draw : V3 → V3 → V3) (mn mx : V3)
    (tmpl : TemplateObj) (pr : HostObj × List (PName × Particle))
    (hcanon : ∀ q ∈ pr.2, ∃ i : ℤ, q.1 = particle_idn2name sysName i) :
    dkeys (rebuiltGdOf sysName draw mn mx tmpl pr) = dkeys pr.2 := by
  unfold rebuiltGdOf
  rw [dkeys_rebuiltGd, pairs_names sysName pr.2 hcanon]

theorem rebuiltGdOf_length (sysName : PName) (draw : V3 → V3 → V3) (mn mx : V3)
    (tmpl : TemplateObj) (pr : HostObj × List (PName × Particle)) :
    (rebuiltGdOf sysName draw mn mx tmpl pr).length = pr.2.length := by
  simp [rebuiltGdOf, rebuiltGd, idnsOf, lnsOf]

theorem syncCreateStep_fresh (sysName : PName) (draw : V3 → V3 → V3) (scene : Scene)
    (mapping : List (PName × (List ℤ × List PName))) (tmpl : TemplateObj)
    (pr : HostObj × List (PName × Particle)) (st : SysState)
    (hpo : st.particleObject = some tmpl)
    (hreg : objectRegistryByName scene pr.1.name = some pr.1)
    (hmap : dget mapping pr.1.name = some (idnsOf sysName pr.2, lnsOf pr.2))
    (hgfresh : pr.1.name ∉ dkeys st.groupParticles)
    (hfp : ∀ q ∈ pr.2, q.1 ∉ dkeys st.particles)
    (hcanon : ∀ q ∈ pr.2, ∃ i : ℤ, q.1 = particle_idn2name sysName i)
    (hnd : (dkeys pr.2).Nodup) :
    ∃ st', syncCreateStep sysName draw scene mapping st pr.1.name = .ok st' ∧
      st'.particles = st.particles ++
        rebuiltGdOf sysName draw st.minScale st.maxScale tmpl pr ∧
      st'.groupParticles = st.groupParticles ++
        [(pr.1.name, rebuiltGdOf sysName draw st.minScale st.maxScale tmpl pr)] ∧
      st'.groupObjects = st.groupObjects ++ [(pr.1.name, pr.1)] ∧
      st'.minScale = st.minScale ∧
      st'.maxScale = st.maxScale ∧
      st'.particleObject = some tmpl ∧
      st'.maxParticleIdn = st.maxParticleIdn + pr.2.length := by
  have hcr : create_attachment_group st pr.1 = .ok (pr.1.name, createdState st pr.1) := by
    unfold create_attachment_group get_group_name createdState
    rw [if_neg hgfresh]
  have hpo2 : (createdState st pr.1).particleObject = some tmpl := hpo
  have hgd2 : dget (createdState st pr.1).groupParticles pr.1.name = some [] := by
    show dget (st.groupParticles ++ [(pr.1.name, [])]) pr.1.name = some []
    rw [dget_append_right _ _ _ hgfresh]
    simp [dget]
  have hnames := pairs_names sysName pr.2 hcanon
  have hfp2 : ∀ ip ∈ (idnsOf sysName pr.2).zip (lnsOf pr.2),
      particle_idn2name sysName ip.1 ∉ dkeys (createdState st pr.1).particles := by
    intro ip hip
    have hm : particle_idn2name sysName ip.1 ∈ dkeys pr.2 := by
      rw [← hnames]
      exact List.mem_map.mpr ⟨ip, hip, rfl⟩
    obtain ⟨q, hq, hqe⟩ := List.mem_map.mp hm
    show particle_idn2name sysName ip.1 ∉ dkeys st.particles
    rw [← hqe]
    exact hfp q hq
  have hfg2 : ∀ ip ∈ (idnsOf sysName pr.2).zip (lnsOf pr.2),
      particle_idn2name sysName ip.1 ∉ dkeys ([] : List (PName × Particle)) := by
    intro ip _
    simp [dkeys]
  have hnd2 : (((idnsOf sysName pr.2).zip (lnsOf pr.2)).map
      (fun ip => particle_idn2name sysName ip.1)).Nodup := by
    rw [hnames]
    exact hnd
  obtain ⟨st', hfold, hp, hgp, hgo, hmn, hmx, hpo', hmax⟩ :=
    syncAdd_fold sysName draw tmpl pr.1 pr.1.name
      ((idnsOf sysName pr.2).zip (lnsOf pr.2)) (createdState st pr.1)
      [] hpo2 hgd2 hfp2 hfg2 hnd2
  have hplen : ((idnsOf sysName pr.2).zip (lnsOf pr.2)).length = pr.2.length := by
    simp [idnsOf, lnsOf]
  refine ⟨st', ?_, ?_, ?_, ?_, hmn, hmx, hpo', ?_⟩
  · unfold syncCreateStep
    rw [hreg, hmap]
    show (create_attachment_group st pr.1 >>= _) = _
    rw [hcr, except_bind_ok]
    exact hfold
  · exact hp
  · have hgp' : st'.groupParticles = dmodify
        (st.groupParticles ++ [(pr.1.name, [])]) pr.1.name
        (fun _ => [] ++ rebuiltGd sysName draw st.minScale st.maxScale tmpl pr.1
          ((idnsOf sysName pr.2).zip (lnsOf pr.2))) := hgp
    rw [hgp', dmodify_append_fresh _ _ _ _ hgfresh]
    rfl
  · exact hgo
  · have hmax' : st'.maxParticleIdn = st.maxParticleIdn +
        (((idnsOf sysName pr.2).zip (lnsOf pr.2)).length : ℤ) := hmax
    rw [hmax', hplen]
theorem allGroupNames_cons (pr : HostObj × List (PName × Particle)) (t : GroupData) :
    allGroupNames (pr :: t) = dkeys pr.2 ++ allGroupNames t := by
  simp [allGroupNames]

theorem syncCreate_fold (sysName : PName) (draw : V3 → V3 → V3) (scene : Scene)
    (mapping : List (PName × (List ℤ × List PName))) (tmpl : TemplateObj) :
    ∀ (gsuf : GroupData) (st : SysState),
      st.particleObject = some tmpl →
      (∀ pr ∈ gsuf, objectRegistryByName scene pr.1.name = some pr.1) →
      (∀ pr ∈ gsuf, dget mapping pr.1.name = some (idnsOf sysName pr.2, lnsOf pr.2)) →
      (∀ pr ∈ gsuf, pr.1.name ∉ dkeys st.groupParticles) →
      (gsuf.map (fun pr => pr.1.name)).Nodup →
      (∀ pr ∈ gsuf, ∀ q ∈ pr.2, q.1 ∉ dkeys st.particles) →
      (allGroupNames gsuf).Nodup →
      (∀ pr ∈ gsuf, ∀ q ∈ pr.2, ∃ i : ℤ, q.1 = particle_idn2name sysName i) →
      ∃ st', (gsuf.map (fun pr => pr.1.name)).foldlM
          (syncCreateStep sysName draw scene mapping) st = .ok st' ∧
        st'.particles = st.particles ++
          (gsuf.map (rebuiltGdOf sysName draw st.minScale st.maxScale tmpl)).join ∧
        st'.groupParticles = st.groupParticles ++ gsuf.map (fun pr =>
          (pr.1.name, rebuiltGdOf sysName draw st.minScale st.maxScale tmpl pr)) ∧
        st'.groupObjects = st.groupObjects ++ goOf gsuf ∧
        st'.minScale = st.minScale ∧
        st'.maxScale = st.maxScale ∧
        st'.particleObject = some tmpl ∧
        st'.maxParticleIdn = st.maxParticleIdn + totalGroupParticles gsuf := by
  intro gsuf
  induction gsuf with
  | nil =>
    intro st hpo _ _ _ _ _ _ _
    exact ⟨st, rfl, by simp, by simp, by simp [goOf], rfl, rfl, hpo,
      by simp [totalGroupParticles]⟩
  | cons pr rest ih =>
    intro st hpo hreg hmap hgfresh hgnames hfp hnames hcanon
    simp only [List.map_cons, List.nodup_cons] at hgnames
    obtain ⟨hgnm, hgnames'⟩ := hgnames
    rw [allGroupNames_cons, List.nodup_append] at hnames
    obtain ⟨hndhead, hnames', hdisj⟩ := hnames
    obtain ⟨st1, hstep, hp1, hgp1, hgo1, hmn1, hmx1, hpo1, hmax1⟩ :=
      syncCreateStep_fresh sysName draw scene mapping tmpl pr st hpo
        (hreg pr (List.mem_cons_self pr rest))
        (hmap pr (List.mem_cons_self pr rest))
        (hgfresh pr (List.mem_cons_self pr rest))
        (fun q hq => hfp pr (List.mem_cons_self pr rest) q hq)
        (hcanon pr (List.mem_cons_self pr rest)) hndhead
    have hgfresh' : ∀ pr' ∈ rest, pr'.1.name ∉ dkeys st1.groupParticles := by
      intro pr' hpr' hcon
      rw [hgp1, dkeys_append] at hcon
      rcases List.mem_append.mp hcon with h | h
      · exact hgfresh pr' (List.mem_cons_of_mem pr hpr') h
      · apply hgnm
        have he : pr'.1.name = pr.1.name := by simpa [dkeys] using h
        rw [← he]
        exact List.mem_map.mpr ⟨pr', hpr', rfl⟩
    have hfp' : ∀ pr' ∈ rest, ∀ q ∈ pr'.2, q.1 ∉ dkeys st1.particles := by
      intro pr' hpr' q hq hcon
      rw [hp1, dkeys_append,
        rebuiltGdOf_keys sysName draw st.minScale st.maxScale tmpl pr
          (hcanon pr (List.mem_cons_self pr rest))] at hcon
      rcases List.mem_append.mp hcon with h | h
      · exact hfp pr' (List.mem_cons_of_mem pr hpr') q hq h
      · refine hdisj h ?_
        rw [show allGroupNames rest = (rest.map (fun x => dkeys x.2)).join from rfl]
        refine List.mem_join.mpr ⟨dkeys pr'.2, List.mem_map.mpr ⟨pr', hpr', rfl⟩, ?_⟩
        exact List.mem_map.mpr ⟨q, hq, rfl⟩
    obtain ⟨st', hfold, hp, hgp, hgo, hmn, hmx, hpo', hmax⟩ :=
      ih st1 hpo1
        (fun q hq => hreg q (List.mem_cons_of_mem pr hq))
        (fun q hq => hmap q (List.mem_cons_of_mem pr hq))
        hgfresh' hgnames' hfp' hnames'
        (fun q hq => hcanon q (List.mem_cons_of_mem pr hq))
    rw [hmn1, hmx1] at hp hgp
    rw [hp1] at hp
    rw [hgp1] at hgp
    rw [hgo1] at hgo
    refine ⟨st', ?_, ?_, ?_, ?_, hmn.trans hmn1, hmx.trans hmx1, hpo', ?_⟩
    · simp only [List.map_cons]
      rw [List.foldlM_cons, hstep, except_bind_ok]
      exact hfold
    · rw [hp, List.append_assoc]
      rfl
    · rw [hgp, List.append_assoc]
      rfl
    · rw [hgo, List.append_assoc]
      rfl
    · rw [hmax, hmax1]
      rw [show totalGroupParticles (pr :: rest) =
        pr.2.length + totalGroupParticles rest from by simp [totalGroupParticles]]
      push_cast
      ring
theorem sync_mapping_eq (sysName : PName) (gs : GroupData) :
    ((gs.map (fun pr => some pr.1)).zip ((gs.map (fun pr => idnsOf sysName pr.2)).zip
      (gs.map (fun pr => lnsOf pr.2)))).filterMap
      (fun pr => pr.1.map (fun obj => (obj.name, pr.2))) =
    gs.map (fun pr => (pr.1.name, (idnsOf sysName pr.2, lnsOf pr.2))) := by
  induction gs with
  | nil => rfl
  | cons pr t ih => simp [ih]

theorem sync_desired_eq (gs : GroupData) :
    ((gs.map (fun pr => some pr.1)).filterMap id).map HostObj.name =
      gs.map (fun pr => pr.1.name) := by
  induction gs with
  | nil => rfl
  | cons pr t ih =>
    rw [List.map_cons]
    rw [show List.filterMap id (some pr.1 :: List.map (fun pr => some pr.1) t) =
      pr.1 :: List.filterMap id (List.map (fun pr => some pr.1) t) from rfl]
    rw [List.map_cons, ih, List.map_cons]

theorem dget_keyed_map {β : Type} (gs : GroupData) (h : HostObj × List (PName × Particle) → β)
    (hg : (gs.map (fun pr => pr.1.name)).Nodup) (pr : HostObj × List (PName × Particle))
    (hmem : pr ∈ gs) :
    dget (gs.map (fun x => (x.1.name, h x))) pr.1.name = some (h pr) := by
  apply dget_of_mem_nodup
  · show (List.map Prod.fst (gs.map (fun x => (x.1.name, h x)))).Nodup
    rw [List.map_map]
    exact hg
  · exact List.mem_map.mpr ⟨pr, hmem, rfl⟩

theorem sync_fresh (sysName : PName) (draw : V3 → V3 → V3) (scene : Scene)
    (gs : GroupData) (tmpl : TemplateObj) (s0 : SysState)
    (h0gp : s0.groupParticles = []) (h0go : s0.groupObjects = [])
    (h0p : s0.particles = []) (h0t : s0.particleObject = some tmpl)
    (hgnames : (gs.map (fun pr => pr.1.name)).Nodup)
    (hnames : (allGroupNames gs).Nodup)
    (hcanon : ∀ pr ∈ gs, ∀ q ∈ pr.2, ∃ i : ℤ, q.1 = particle_idn2name sysName i)
    (hbyname : ∀ pr ∈ gs, objectRegistryByName scene pr.1.name = some pr.1) :
    ∃ s1, sync_particle_groups sysName draw scene s0
        (gs.map (fun pr => some pr.1))
        (gs.map (fun pr => idnsOf sysName pr.2))
        (gs.map (fun pr => lnsOf pr.2)) = .ok s1 ∧
      s1.particles = (gs.map (rebuiltGdOf sysName draw s0.minScale s0.maxScale tmpl)).join ∧
      s1.groupParticles = gs.map (fun pr =>
        (pr.1.name, rebuiltGdOf sysName draw s0.minScale s0.maxScale tmpl pr)) ∧
      s1.groupObjects = goOf gs ∧
      s1.minScale = s0.minScale ∧
      s1.maxScale = s0.maxScale ∧
      s1.particleObject = some tmpl ∧
      s1.maxParticleIdn = s0.maxParticleIdn + totalGroupParticles gs := by
  obtain ⟨s1, hfold, hp, hgp, hgo, hmn, hmx, hpo, hmax⟩ :=
    syncCreate_fold sysName draw scene
      (gs.map (fun pr => (pr.1.name, (idnsOf sysName pr.2, lnsOf pr.2)))) tmpl gs s0 h0t
      hbyname
      (fun pr hpr => dget_keyed_map gs
        (fun x => (idnsOf sysName x.2, lnsOf x.2)) hgnames pr hpr)
      (fun pr _ => by rw [h0gp]; simp [dkeys])
      hgnames
      (fun pr _ q _ => by rw [h0p]; simp [dkeys])
      hnames hcanon
  refine ⟨s1, ?_, ?_, ?_, ?_, hmn, hmx, hpo, hmax⟩
  · unfold sync_particle_groups
    rw [sync_mapping_eq sysName gs, h0gp]
    simp only [dkeys, List.map_nil, List.filter_nil, List.nil_append, List.append_nil,
      List.foldlM_nil, sync_desired_eq gs, List.not_mem_nil, not_false_eq_true,
      decide_True, List.filter_true]
    rw [pure_bind]
    exact hfold
  · rw [hp, h0p, List.nil_append]
  · rw [hgp, h0gp, List.nil_append]
  · rw [hgo, h0go, List.nil_append]
theorem dumpGroups_idns (sysName : PName) (gs : GroupData) :
    (dumpGroups sysName gs).map (fun pr => pr.2.particle_idns) =
      gs.map (fun pr => idnsOf sysName pr.2) := by
  unfold dumpGroups
  rw [List.map_map]
  rfl

theorem dumpGroups_lnks (sysName : PName) (gs : GroupData) :
    (dumpGroups sysName gs).map (fun pr => pr.2.particle_attached_link_names) =
      gs.map (fun pr => lnsOf pr.2) := by
  unfold dumpGroups
  rw [List.map_map]
  rfl

theorem dumpGroups_regs (sysName : PName) (scene : Scene) (gs : GroupData)
    (huuid : ∀ pr ∈ gs, objectRegistryByUuid scene pr.1.uuid = some pr.1) :
    (dumpGroups sysName gs).map
      (fun pr => objectRegistryByUuid scene pr.2.particle_attached_obj_uuid) =
      gs.map (fun pr => some pr.1) := by
  unfold dumpGroups
  rw [List.map_map]
  apply List.map_congr_left
  intro pr hpr
  exact huuid pr hpr

theorem map_some_fst (gs : GroupData) :
    (gs.map (fun pr => pr.1)).map some = gs.map (fun pr => some pr.1) := by
  rw [List.map_map]
  rfl

theorem sync_noop_rt (sysName : PName) (draw : V3 → V3 → V3) (scene : Scene)
    (gs : GroupData) (s : SysState)
    (f : HostObj × List (PName × Particle) → List (PName × Particle))
    (hgp : s.groupParticles = gs.map (fun pr => (pr.1.name, f pr)))
    (hflen : ∀ pr ∈ gs, (f pr).length = pr.2.length)
    (hgnames : (gs.map (fun pr => pr.1.name)).Nodup) :
    sync_particle_groups sysName draw scene s
      (gs.map (fun pr => some pr.1))
      (gs.map (fun pr => idnsOf sysName pr.2))
      (gs.map (fun pr => lnsOf pr.2)) = .ok s := by
  have hcur : dkeys (gs.map (fun pr => (pr.1.name, f pr))) =
      gs.map (fun pr => pr.1.name) := by
    unfold dkeys
    rw [List.map_map]
    rfl
  have htd : (gs.map (fun pr => pr.1.name)).filter
      (fun nm => nm ∉ gs.map (fun pr => pr.1.name)) = [] := by
    rw [List.filter_eq_nil]
    intro a ha
    simp [ha]
  have hcm : (gs.map (fun pr => pr.1.name)).filter
      (fun nm => nm ∈ gs.map (fun pr => pr.1.name)) =
      gs.map (fun pr => pr.1.name) := by
    rw [List.filter_eq_self]
    intro a ha
    exact decide_eq_true ha
  have hmm : (gs.map (fun pr => pr.1.name)).filter (fun nm =>
      groupLen s nm ≠ ((dget (gs.map (fun x =>
        (x.1.name, (idnsOf sysName x.2, lnsOf x.2)))) nm).getD ([], [])).1.length) = [] := by
    rw [List.filter_eq_nil]
    intro a ha
    obtain ⟨pr, hpr, he⟩ := List.mem_map.mp ha
    subst he
    have h1 : groupLen s pr.1.name = pr.2.length := by
      unfold groupLen
      rw [hgp, dget_keyed_map gs f hgnames pr hpr]
      exact hflen pr hpr
    have h2 : dget (gs.map (fun x => (x.1.name, (idnsOf sysName x.2, lnsOf x.2))))
        pr.1.name = some (idnsOf sysName pr.2, lnsOf pr.2) :=
      dget_keyed_map gs (fun x => (idnsOf sysName x.2, lnsOf x.2)) hgnames pr hpr
    simp [h1, h2, idnsOf_length]
  unfold sync_particle_groups
  rw [sync_mapping_eq sysName gs, hgp, hcur, sync_desired_eq gs]
  simp only [htd, hcm, hmm, List.nil_append, List.append_nil, List.foldlM_nil, pure_bind]
  rfl
theorem gsum_two_add (gs : GroupData) :
    (gs.map (fun pr => 2 + 2 * pr.2.length)).sum =
      2 * gs.length + (gs.map (fun pr => 2 * pr.2.length)).sum := by
  induction gs with
  | nil => rfl
  | cons pr t ih =>
    simp only [List.map_cons, List.sum_cons, ih, List.length_cons]
    ring

theorem load_base_keeps_groups (s : SysState) (st : MPSState) (tmpl : TemplateObj)
    (tp : V3 × V4) (tsc : V3)
    (hn : s.particles.length = st.n_particles)
    (hplen : st.poses.length = st.n_particles)
    (hslen : st.scales.length = st.n_particles)
    (hpo : s.particleObject = some tmpl)
    (htp : st.template_pose = some tp)
    (hts : st.template_scale = some tsc) :
    ∃ s2, load_base s st = .ok s2 ∧
      s2.groupParticles = s.groupParticles ∧
      s2.groupObjects = s.groupObjects ∧
      s2.particles.length = st.n_particles ∧
      s2.maxParticleIdn = ratToInt st.max_particle_idn := by
  obtain ⟨parts, mn, mx, mi, po, gp, go⟩ := s
  obtain ⟨m0, n0, P0, S0, tp0, ts0⟩ := st
  simp only at hn hplen hslen hpo htp hts
  subst hpo
  subst htp
  subst hts
  subst hn
  unfold load_base
  rw [if_neg (by simp)]
  refine ⟨_, rfl, rfl, rfl, ?_, rfl⟩
  simp [hplen, hslen]
theorem except_pure_eq {ε α : Type} (a : α) : (pure a : Except ε α) = Except.ok a := rfl

theorem rt_master (sysName : PName) (draw : V3 → V3 → V3) (scene : Scene)
    (s : SysState) (gs : GroupData) (tmpl tmpl0 : TemplateObj)
    (H : RTHyps sysName scene s gs tmpl) :
    ∃ s1 s2,
      deserialize_visual sysName draw scene (initSystem tmpl0)
          (serialize_visual s (dump_visual sysName s)) =
        .ok ((dump_visual sysName s, state_size_visual s), s1) ∧
      load_visual sysName draw scene s1 (dump_visual sysName s) = .ok s2 ∧
      s2.groupParticles = gs.map (fun pr =>
        (pr.1.name, rebuiltGdOf sysName draw V3.ones V3.ones tmpl0 pr)) ∧
      s2.groupObjects = goOf gs ∧
      s2.particles.length = s.particles.length ∧
      s2.maxParticleIdn = s.maxParticleIdn := by
  obtain ⟨hgp, hgo, htmpl, hcount, hnames, hgnames, hcanon, hlinks, huuid, hbyname⟩ := H
  have hdv := dump_visual_eq sysName s gs hgp hgo hgnames
  have hdget : ∀ pr ∈ gs, dget s.groupObjects pr.1.name = some pr.1 := by
    intro pr hpr
    rw [hgo]
    exact dget_goOf gs hgnames pr hpr
  have hfb := flatGroups_blocks sysName s gs hdget
  have hv : serialize_visual s (dump_visual sysName s) =
      (((gs.length : ℕ) : ℚ) :: flatGroupBlocks sysName gs) ++
        serialize_base (dump_base s) := by
    unfold serialize_visual
    rw [hdv]
    dsimp only
    rw [hfb]
  have hbN : (dump_base s).n_particles = s.particles.length := rfl
  have hbp : (dump_base s).poses.length = (dump_base s).n_particles := by simp [dump_base]
  have hbs : (dump_base s).scales.length = (dump_base s).n_particles := by simp [dump_base]
  have hbtp : (dump_base s).template_pose = some (tmpl.pos, tmpl.ori) := by
    unfold dump_base
    rw [htmpl]
    rfl
  have hbts : (dump_base s).template_scale = some tmpl.scale := by
    unfold dump_base
    rw [htmpl]
    rfl
  have hn0 : (ratToInt ((((((gs.length : ℕ) : ℚ)) :: flatGroupBlocks sysName gs) ++
      serialize_base (dump_base s)).getD 0 0)).toNat = gs.length := by
    rw [show (((((gs.length : ℕ) : ℚ)) :: flatGroupBlocks sysName gs) ++
      serialize_base (dump_base s)).getD 0 0 = ((gs.length : ℕ) : ℚ) from rfl,
      ratToInt_natCast, Int.toNat_natCast]
  have hdrop1 : (((((gs.length : ℕ) : ℚ)) :: flatGroupBlocks sysName gs) ++
      serialize_base (dump_base s)).drop 1 =
      flatGroupBlocks sysName gs ++ serialize_base (dump_base s) := rfl
  have hparse := parseGroupsLoop_blocks sysName scene
    (((((gs.length : ℕ) : ℚ)) :: flatGroupBlocks sysName gs) ++
      serialize_base (dump_base s)) gs (serialize_base (dump_base s)) 1 [] []
    hdrop1 huuid hlinks
  obtain ⟨s1, hsy, hp1, hgp1, hgo1, hmn1, hmx1, hpo1, hmax1⟩ :=
    sync_fresh sysName draw scene gs tmpl0 (initSystem tmpl0) rfl rfl rfl rfl
      hgnames hnames hcanon hbyname
  have hp1x : s1.particles =
      (gs.map (rebuiltGdOf sysName draw V3.ones V3.ones tmpl0)).join := hp1
  have hgp1x : s1.groupParticles = gs.map (fun pr =>
      (pr.1.name, rebuiltGdOf sysName draw V3.ones V3.ones tmpl0 pr)) := hgp1
  have hsy2 : sync_particle_groups sysName draw scene (initSystem tmpl0)
      ((([] : List HostObj) ++ gs.map (fun pr => pr.1)).map some)
      ((([] : List (PName × GroupInfo)) ++ dumpGroups sysName gs).map
        (fun pr => pr.2.particle_idns))
      ((([] : List (PName × GroupInfo)) ++ dumpGroups sysName gs).map
        (fun pr => pr.2.particle_attached_link_names)) = .ok s1 := by
    simp only [List.nil_append]
    rw [map_some_fst, dumpGroups_idns, dumpGroups_lnks]
    exact hsy
  have hs1len : s1.particles.length = s.particles.length := by
    rw [hp1x, List.length_join, List.map_map]
    rw [show List.map (List.length ∘ rebuiltGdOf sysName draw V3.ones V3.ones tmpl0) gs =
      gs.map (fun pr => pr.2.length) from List.map_congr_left
        (fun pr _ => rebuiltGdOf_length sysName draw V3.ones V3.ones tmpl0 pr)]
    rw [hcount]
    rfl
  have hsz1 : state_size_visual s1 > 2 + (dump_base s).n_particles * 10 := by
    unfold state_size_visual state_size_base
    simp only [hpo1, hs1len, hbN]
    omega
  have hdeser := deserialize_serialize_base_some (dump_base s) (tmpl.pos, tmpl.ori)
    tmpl.scale hbp hbs hbtp hbts (state_size_visual s1) hsz1
  have hdropG : (((((gs.length : ℕ) : ℚ)) :: flatGroupBlocks sysName gs) ++
      serialize_base (dump_base s)).drop
        (1 + (gs.map (fun pr => 2 + 2 * pr.2.length)).sum) =
      serialize_base (dump_base s) := by
    rw [show (gs.map (fun pr => 2 + 2 * pr.2.length)).sum =
      (flatGroupBlocks sysName gs).length from (flatGroupBlocks_length sysName gs).symm]
    exact drop_one_append _ _ _
  have hconsumed : 1 + (gs.map (fun pr => 2 + 2 * pr.2.length)).sum +
      (2 + (dump_base s).n_particles * 10 + 10) = state_size_visual s := by
    rw [gsum_two_add, hbN]
    unfold state_size_visual state_size_base
    rw [hgp]
    rw [show (gpOf gs).length = gs.length from by simp [gpOf]]
    rw [show (gpOf gs).map (fun pr => 2 * pr.2.length) =
      gs.map (fun pr => 2 * pr.2.length) from by unfold gpOf; rw [List.map_map]; rfl]
    simp only [htmpl]
    omega
  have hdesfull : deserialize_visual sysName draw scene (initSystem tmpl0)
      (serialize_visual s (dump_visual sysName s)) =
      .ok ((dump_visual sysName s, state_size_visual s), s1) := by
    rw [hv]
    unfold deserialize_visual
    dsimp only
    rw [hn0, hparse, except_bind_ok]
    dsimp only
    rw [hsy2, except_bind_ok]
    rw [hdropG, hdeser]
    dsimp only
    rw [except_pure_eq, Except.ok.injEq, Prod.mk.injEq, Prod.mk.injEq]
    refine ⟨⟨?_, hconsumed⟩, rfl⟩
    rw [hdv]
    simp only [List.nil_append]
  have hreg2 := dumpGroups_regs sysName scene gs huuid
  have hsync2 := sync_noop_rt sysName draw scene gs
    { s1 with maxParticleIdn := ratToInt (dump_visual sysName s).max_particle_idn }
    (rebuiltGdOf sysName draw V3.ones V3.ones tmpl0)
    hgp1x (fun pr _ => rebuiltGdOf_length sysName draw V3.ones V3.ones tmpl0 pr) hgnames
  have hsync2x : sync_particle_groups sysName draw scene
      { s1 with maxParticleIdn := ratToInt (dump_visual sysName s).max_particle_idn }
      ((dump_visual sysName s).groups.map
        (fun pr => objectRegistryByUuid scene pr.2.particle_attached_obj_uuid))
      ((dump_visual sysName s).groups.map (fun pr => pr.2.particle_idns))
      ((dump_visual sysName s).groups.map (fun pr => pr.2.particle_attached_link_names)) =
      .ok { s1 with maxParticleIdn := ratToInt (dump_visual sysName s).max_particle_idn } := by
    rw [hdv]
    dsimp only
    rw [hreg2, dumpGroups_idns, dumpGroups_lnks]
    exact hsync2
  have hcnt2 : ¬(s1.particles.length ≠ (dump_visual sysName s).n_particles) := by
    rw [show (dump_visual sysName s).n_particles = s.particles.length from rfl]
    simp [hs1len]
  obtain ⟨s2, hlb, hlgp, hlgo, hlplen, hlmax⟩ := load_base_keeps_groups
    { s1 with maxParticleIdn := ratToInt (dump_visual sysName s).max_particle_idn }
    (dump_base s) tmpl0 (tmpl.pos, tmpl.ori) tmpl.scale
    (hs1len.trans hbN.symm)
    hbp hbs hpo1 hbtp hbts
  have hloadfull : load_visual sysName draw scene s1 (dump_visual sysName s) = .ok s2 := by
    unfold load_visual
    dsimp only
    rw [hsync2x, except_bind_ok]
    rw [if_neg hcnt2]
    exact hlb
  refine ⟨s1, s2, hdesfull, hloadfull, hlgp.trans hgp1x, hlgo.trans hgo1, ?_, ?_⟩
  · exact hlplen.trans hbN
  · rw [hlmax]
    exact ratToInt_intCast s.maxParticleIdn
theorem gsum_double (gs : GroupData) :
    (gs.map (fun pr => 2 * pr.2.length)).sum = 2 * totalGroupParticles gs := by
  unfold totalGroupParticles
  induction gs with
  | nil => rfl
  | cons pr t ih =>
    simp only [List.map_cons, List.sum_cons, ih]
    ring

theorem rt_names_nodup : (allGroupNames rtGs).Nodup := by
  rw [show allGroupNames rtGs =
    [(0 : ℤ), 1, 2, 3, 4, 5, 6, 7].map (particle_idn2name exSysName) from rfl]
  exact List.Nodup.map (idn2name_injective exSysName) (by decide)

theorem rt_canon : ∀ pr ∈ rtGs, ∀ q ∈ pr.2,
    ∃ i : ℤ, q.1 = particle_idn2name exSysName i := by
  intro pr hpr q hq
  simp only [rtGs, List.mem_cons, List.not_mem_nil, or_false] at hpr
  rcases hpr with rfl | rfl
  · simp only [rtGdA, List.mem_cons, List.not_mem_nil, or_false] at hq
    rcases hq with rfl | rfl | rfl
    · exact ⟨0, rfl⟩
    · exact ⟨1, rfl⟩
    · exact ⟨2, rfl⟩
  · simp only [rtGdB, List.mem_cons, List.not_mem_nil, or_false] at hq
    rcases hq with rfl | rfl | rfl | rfl | rfl
    · exact ⟨3, rfl⟩
    · exact ⟨4, rfl⟩
    · exact ⟨5, rfl⟩
    · exact ⟨6, rfl⟩
    · exact ⟨7, rfl⟩

/-- C10: for a well-formed grouped state with a template installed, the
serialized flat vector's length is exactly `state_size` — `10 n + 12` at
the registry level plus `1 + 2 n_groups + 2 (total group particles)` at
the group layer — and deserializing that vector into a fresh system
consumes exactly `state_size` entries. -/
theorem C10_serialize_length_and_consumption (sysName : PName) (draw : V3 → V3 → V3)
    (scene : Scene) (s : SysState) (gs : GroupData) (tmpl tmpl0 : TemplateObj)
    (H : RTHyps sysName scene s gs tmpl) :
    state_size_base s = 10 * s.particles.length + 12 ∧
    state_size_visual s = (10 * s.particles.length + 12) +
      (1 + 2 * gs.length + 2 * totalGroupParticles gs) ∧
    (serialize_base (dump_base s)).length = state_size_base s ∧
    (serialize_visual s (dump_visual sysName s)).length = state_size_visual s ∧
    ∃ s1, deserialize_visual sysName draw scene (initSystem tmpl0)
        (serialize_visual s (dump_visual sysName s)) =
      .ok ((dump_visual sysName s, state_size_visual s), s1) := by
  have h1 : state_size_base s = 10 * s.particles.length + 12 := by
    unfold state_size_base
    simp only [H.htmpl]
  refine ⟨h1, ?_, serialize_dump_base_length s, serialize_dump_visual_length sysName s, ?_⟩
  · unfold state_size_visual
    rw [h1, H.hgp]
    rw [show (gpOf gs).length = gs.length from by simp [gpOf]]
    rw [show (gpOf gs).map (fun pr => 2 * pr.2.length) =
      gs.map (fun pr => 2 * pr.2.length) from by unfold gpOf; rw [List.map_map]; rfl]
    rw [gsum_double]
    omega
  · obtain ⟨s1, s2, hdes, _⟩ := rt_master sysName draw scene s gs tmpl tmpl0 H
    exact ⟨s1, hdes⟩

/-- C10 witness: the concrete two-group fixture. -/
theorem C10_serialize_length_witness :
    state_size_base rtState = 10 * rtState.particles.length + 12 ∧
    state_size_visual rtState = (10 * rtState.particles.length + 12) +
      (1 + 2 * rtGs.length + 2 * totalGroupParticles rtGs) ∧
    (serialize_base (dump_base rtState)).length = state_size_base rtState ∧
    (serialize_visual rtState (dump_visual exSysName rtState)).length =
      state_size_visual rtState ∧
    ∃ s1, deserialize_visual exSysName exDraw rtScene (initSystem exTemplate)
        (serialize_visual rtState (dump_visual exSysName rtState)) =
      .ok ((dump_visual exSysName rtState, state_size_visual rtState), s1) :=
  C10_serialize_length_and_consumption exSysName exDraw rtScene rtState rtGs
    exTemplate exTemplate
    ⟨rfl, rfl, rfl, by decide, rt_names_nodup, by decide, rt_canon,
     by decide, by decide, by decide⟩

/-- C3: serializing a grouped system holding two attachment groups with 3
and 5 particles, then deserializing into a fresh system instance and
loading the parsed state, reconstructs exactly two groups with 3 and 5
particles, associated with the correct host objects, and every
reconstructed particle keeps its original name (hence its original
identifier) rather than a freshly allocated one. -/
theorem C3_group_roundtrip (sysName : PName) (draw : V3 → V3 → V3) (scene : Scene)
    (s : SysState) (o1 o2 : HostObj) (gd1 gd2 : List (PName × Particle))
    (tmpl tmpl0 : TemplateObj)
    (H : RTHyps sysName scene s [(o1, gd1), (o2, gd2)] tmpl)
    (h3 : gd1.length = 3) (h5 : gd2.length = 5) :
    ∃ s1 s2,
      deserialize_visual sysName draw scene (initSystem tmpl0)
          (serialize_visual s (dump_visual sysName s)) =
        .ok ((dump_visual sysName s, state_size_visual s), s1) ∧
      load_visual sysName draw scene s1 (dump_visual sysName s) = .ok s2 ∧
      s2.groupParticles.length = 2 ∧
      s2.groupParticles.map (fun pr => (pr.1, dkeys pr.2)) =
        [(o1.name, dkeys gd1), (o2.name, dkeys gd2)] ∧
      s2.groupParticles.map (fun pr => pr.2.length) = [3, 5] ∧
      dget s2.groupObjects o1.name = some o1 ∧
      dget s2.groupObjects o2.name = some o2 := by
  obtain ⟨s1, s2, hdes, hload, hgp2, hgo2, _, _⟩ :=
    rt_master sysName draw scene s [(o1, gd1), (o2, gd2)] tmpl tmpl0 H
  have hne : o1.name ≠ o2.name := by
    have h := H.hgnames
    simp only [List.map_cons, List.map_nil, List.nodup_cons] at h
    intro he
    exact h.1 (by simp [he])
  refine ⟨s1, s2, hdes, hload, ?_, ?_, ?_, ?_, ?_⟩
  · rw [hgp2]
    rfl
  · rw [hgp2]
    simp only [List.map_cons, List.map_nil]
    rw [rebuiltGdOf_keys sysName draw V3.ones V3.ones tmpl0 (o1, gd1)
      (H.hcanon (o1, gd1) (by simp))]
    rw [rebuiltGdOf_keys sysName draw V3.ones V3.ones tmpl0 (o2, gd2)
      (H.hcanon (o2, gd2) (by simp))]
  · rw [hgp2]
    simp only [List.map_cons, List.map_nil, rebuiltGdOf_length]
    rw [h3, h5]
  · rw [hgo2]
    simp [goOf, dget]
  · rw [hgo2]
    simp [goOf, dget, hne]

/-- C3 witness: the concrete two-host fixture with groups of 3 and 5
particles. -/
theorem C3_group_roundtrip_witness :
    ∃ s1 s2,
      deserialize_visual exSysName exDraw rtScene (initSystem exTemplate)
          (serialize_visual rtState (dump_visual exSysName rtState)) =
        .ok ((dump_visual exSysName rtState, state_size_visual rtState), s1) ∧
      load_visual exSysName exDraw rtScene s1 (dump_visual exSysName rtState) = .ok s2 ∧
      s2.groupParticles.length = 2 ∧
      s2.groupParticles.map (fun pr => (pr.1, dkeys pr.2)) =
        [(rtHostA.name, dkeys rtGdA), (rtHostB.name, dkeys rtGdB)] ∧
      s2.groupParticles.map (fun pr => pr.2.length) = [3, 5] ∧
      dget s2.groupObjects rtHostA.name = some rtHostA ∧
      dget s2.groupObjects rtHostB.name = some rtHostB :=
  C3_group_roundtrip exSysName exDraw rtScene rtState rtHostA rtHostB rtGdA rtGdB
    exTemplate exTemplate
    ⟨rfl, rfl, rfl, by decide, rt_names_nodup, by decide, rt_canon,
     by decide, by decide, by decide⟩
    (by decide) (by decide)
end MacroParticle
